import Mathlib

/-!
# Verification model of `tripl` (src/tripl/tripl.py)

A shallow embedding of the triple-store engine in `src/tripl/tripl.py`,
executed under Python 3 semantics.  Modelling conventions:

* Python values (entity ids, attribute names, literal values) are modelled as
  `String`.  Literals of other runtime types (booleans, numbers) are encoded as
  distinct string tokens (e.g. `"True"`); no verified claim distinguishes them
  beyond equality.
* `collections.defaultdict` is modelled as an insertion-ordered association
  list.  Reading a missing key with `d[k]` *materializes* the key with the
  default value (appended at the end), exactly as in CPython; `d.get(k)` does
  not.  Python `set`s of values are modelled as duplicate-free lists in
  insertion order (only membership, emptiness and `next(iter(..))` are ever
  observed by the code).
* Fallible code returns `Except PyErr _`; a raised exception aborts the
  surrounding operation (the post-raise partial state is never queried by the
  properties below, so the model discards it).
* `uuid.uuid1()` is modelled by a fresh-id counter `nextId` in the store.
* Python `filter(...)` objects are one-shot iterators (Python 3): in
  `TripleStore.pull` the `attr_patterns` iterator is fully drained by the
  `normal_attributes` dictionary comprehension, hence the later
  `reverse_lookups` loop sees an exhausted iterator and `'*' in attr_patterns`
  is always `False`.  The model reproduces this faithfully.
-/

namespace Tripl

/-- Error values standing for the Python exceptions the engine can raise. -/
inductive PyErr where
  | typeErr   -- TypeError
  | keyErr    -- KeyError
  | indexErr  -- IndexError
  | nameErr   -- NameError
  | fuelOut   -- artificial: recursion fuel exhausted (no Python counterpart)
deriving Repr, DecidableEq

/-- A Python `set` of values: duplicate-free list in insertion order. -/
abbrev Vals := List String

/-- Inner level of a triple index: `attribute -> set of values`. -/
abbrev Row := List (String × Vals)

/-- Outer level of a triple index (`_triple_index()` in the source):
`key -> attribute -> set of values`, a two-level `defaultdict`. -/
abbrev Idx := List (String × Row)

/-- Association-list lookup (Python `d.get(k)` / `k in d`). -/
def lookupA {α : Type} : List (String × α) → String → Option α
  | [], _ => none
  | (k, v) :: rest, key => if k = key then some v else lookupA rest key

/-- Association-list update: replace in place if the key exists (Python dicts
keep the insertion position on update), otherwise append. -/
def setA {α : Type} : List (String × α) → String → α → List (String × α)
  | [], key, v => [(key, v)]
  | (k, w) :: rest, key, v =>
      if k = key then (k, v) :: rest else (k, w) :: setA rest key v

/-- `defaultdict.__getitem__` at the outer level: return the stored row, or
materialize an empty row at the end. -/
def matO (idx : Idx) (k : String) : Idx × Row :=
  match lookupA idx k with
  | some r => (idx, r)
  | none => (idx ++ [(k, [])], [])

/-- `defaultdict.__getitem__` at the inner level. -/
def matI (row : Row) (a : String) : Row × Vals :=
  match lookupA row a with
  | some vs => (row, vs)
  | none => (row ++ [(a, [])], [])

/-- `idx[e][a]` : materialize both levels, returning the value set. -/
def mat2 (idx : Idx) (e a : String) : Idx × Vals :=
  (setA (matO idx e).1 e (matI ((matO idx e).2) a).1, (matI ((matO idx e).2) a).2)

/-- Store a value set at `idx[e][a]` (both keys assumed present or created). -/
def set2 (idx : Idx) (e a : String) (vs : Vals) : Idx :=
  setA (matO idx e).1 e (setA ((matO idx e).2) a vs)

/-- Python `set.add`. -/
def addVal (vs : Vals) (v : String) : Vals :=
  if v ∈ vs then vs else vs ++ [v]

/-- `idx[e][a].add(v)` including the materialization it performs. -/
def addT (idx : Idx) (e a : String) (v : String) : Idx :=
  setA (matO idx e).1 e
    (setA ((matI ((matO idx e).2) a).1) a (addVal ((matI ((matO idx e).2) a).2) v))

/-- Pure read of the value set at `(e,a)` (no materialization): the set of
values the live index would report, `[]` when either key is absent. -/
def getVals (idx : Idx) (e a : String) : Vals :=
  match lookupA idx e with
  | none => []
  | some row => match lookupA row a with
    | none => []
    | some vs => vs

/-- Triple membership `(e,a,v) ∈ idx` (the spec's `∈ EAV` / `∈ VAE`). -/
def memT (idx : Idx) (e a v : String) : Prop := v ∈ getVals idx e a

instance (idx : Idx) (e a v : String) : Decidable (memT idx e a v) := by
  unfold memT; infer_instance

/-- The keys held by an index (the eids `match_pattern` iterates over). -/
def keysOf {α : Type} (l : List (String × α)) : List String := l.map Prod.fst

/-- The state of a `TripleStore` instance: the two indices plus the
configuration attributes set by `__init__`, and the fresh-uuid counter. -/
structure Store where
  eav : Idx
  vae : Idx
  defaultCardinality : String
  lazyRefs : Bool
  identAttr : String
  nextId : Nat
deriving Repr, DecidableEq

/-- Python `str.split(':')` over the character list (`"".split(':') == ['']`,
empty segments preserved). -/
def splitColon : List Char → List (List Char)
  | [] => [[]]
  | c :: rest =>
      let r := splitColon rest
      if c = ':' then [] :: r
      else
        match r with
        | h :: t => (c :: h) :: t
        | [] => [[c]]

/-- Python `':'.join(parts)` over character lists. -/
def joinColon : List (List Char) → List Char
  | [] => []
  | [x] => x
  | x :: rest => x ++ ':' :: joinColon rest

/-- `reverse_lookup(attr_name)` (module level): split on `':'`; if the last
part starts with `'_'`, strip that underscore and re-join, else `None`.
`parts[-1][0]` raises `IndexError` when the last part is empty. -/
def reverseLookup (attr : String) : Except PyErr (Option String) :=
  let parts := splitColon attr.data
  match parts.getLastD [] with
  | [] => .error .indexErr
  | c :: cs =>
      if c = '_' then
        .ok (some (String.mk (joinColon (parts.dropLast ++ [cs]))))
      else .ok none

/-- `TripleStore.schema(attr)` (single-argument form): `dict(self._eav_index[attr])`.
Materializes `attr` as an outer key of the EAV index. -/
def schemaAttr (s : Store) (attr : String) : Store × Row :=
  ({ s with eav := (matO s.eav attr).1 }, (matO s.eav attr).2)

/-- `TripleStore._attr_cardinality`: `None` when the attribute has no schema
entity (empty row); else the declared `db:cardinality` (first element of the
set — `some(..)`), defaulting to the store's default cardinality. -/
def attrCardinality (s : Store) (attr : String) : Store × Option String :=
  if ((schemaAttr s attr).2).isEmpty then ((schemaAttr s attr).1, none)
  else match lookupA ((schemaAttr s attr).2) "db:cardinality" with
    | some vs => ((schemaAttr s attr).1, vs.head?)
    | none => ((schemaAttr s attr).1, some ((schemaAttr s attr).1).defaultCardinality)

/-- `TripleStore._attr_type`: the declared `db:valueType` when the schema row
is nonempty and the declared set is nonempty (`some(schema) if schema else None`). -/
def attrType (s : Store) (attr : String) : Store × Option String :=
  if ((schemaAttr s attr).2).isEmpty then ((schemaAttr s attr).1, none)
  else match lookupA ((schemaAttr s attr).2) "db:valueType" with
    | some vs => ((schemaAttr s attr).1, vs.head?)
    | none => ((schemaAttr s attr).1, none)

/-- Strip-and-recurse part of `TripleStore._ref_attr`, with fuel for the
underscore-stripping recursion (each strip removes one character, so
`attr.length + 1` fuel always suffices; see `refAttr`). -/
def refAttrF : Nat → Store → String → Except PyErr (Store × Bool)
  | 0, _, _ => .error .fuelOut
  | n + 1, s, attr => do
    match ← reverseLookup attr with
    | some stripped => refAttrF n s stripped
    | none => .ok ((attrType s attr).1, (attrType s attr).2 = some "db.type:ref")

/-- `TripleStore._ref_attr`. -/
def refAttr (s : Store) (attr : String) : Except PyErr (Store × Bool) :=
  refAttrF (attr.length + 1) s attr

/-- `TripleStore._card_one`: reverse-lookup tokens are never cardinality-one;
`db:cardinality` itself always is (the Python code returns the truthy string
`'db.cardinality:one'`); otherwise compare the resolved cardinality. -/
def cardOne (s : Store) (attr : String) : Except PyErr (Store × Bool) := do
  match ← reverseLookup attr with
  | some _ => .ok (s, false)
  | none =>
      if attr = "db:cardinality" then .ok (s, true)
      else .ok ((attrCardinality s attr).1,
                (attrCardinality s attr).2 = some "db.cardinality:one")

/-- `TripleStore._assert_triple`.  The cardinality-one replacement path calls
`self._retract_triple(self, (e, a, x))` — one positional argument too many —
so reaching it raises `TypeError` unconditionally (for the first stale value
`x ≠ v` encountered); no retraction ever happens on this path.
Otherwise: add `v` to `EAV[e][a]`, and when the attribute is reference-typed
(checked *after* the add, against the updated index) add `e` to `VAE[v][a]`. -/
def assertTriple (s : Store) (e a v : String) : Except PyErr Store := do
  let (s1, c1) ← cardOne s a
  if c1 ∧ ((mat2 s1.eav e a).2).any (· ≠ v) then
    .error .typeErr  -- _retract_triple(self, (e, a, x)): wrong arity
  else
    let (s4, r) ← refAttr { s1 with eav := addT (mat2 s1.eav e a).1 e a v } a
    if r then .ok { s4 with vae := addT s4.vae v a e }
    else .ok s4

/-- `TripleStore._retract_triple`: `self._eav_index[e][a].remove(v)` raises
`KeyError` when `v` is absent; on the reverse side, absence of a (nonempty)
row for `v`, or of `e` in `VAE[v][a]`, is a silent no-op. -/
def retractTriple (s : Store) (e a v : String) : Except PyErr Store :=
  if v ∈ (mat2 s.eav e a).2 then
    retractReverse
      { s with eav := set2 (mat2 s.eav e a).1 e a (((mat2 s.eav e a).2).erase v) } e a v
  else .error .keyErr
where
  /-- The reverse-index half of `_retract_triple` (after the forward removal
  succeeded): `reverse_index = self._vae_index[v]`; if it is a nonempty row,
  `reverse_attr_index = reverse_index[a]`; remove `e` when present. -/
  retractReverse (s1 : Store) (e a v : String) : Except PyErr Store :=
    if ((matO s1.vae v).2).isEmpty then .ok { s1 with vae := (matO s1.vae v).1 }
    else
      if ¬ ((matI ((matO s1.vae v).2) a).2).isEmpty ∧ e ∈ (matI ((matO s1.vae v).2) a).2 then
        .ok { s1 with
              vae := (setA ((matO s1.vae v).1) v
                (setA ((matI ((matO s1.vae v).2) a).1) a
                  ((((matI ((matO s1.vae v).2) a).2)).erase e))) }
      else .ok { s1 with vae := setA ((matO s1.vae v).1) v ((matI ((matO s1.vae v).2) a).1) }

/-- `TripleStore._retract_triples`. -/
def retractTriples (s : Store) : List (String × String × String) → Except PyErr Store
  | [] => .ok s
  | (e, a, v) :: rest => do retractTriples (← retractTriple s e a v) rest

/-! ## Pattern matcher -/

/-- The value side of one pattern entry: a single acceptable value, or a
collection of acceptable values (`v if isinstance(v, list) or isinstance(v, set)
else [v]`). -/
inductive PatV where
  | one (v : String)
  | many (vs : List String)
deriving Repr, DecidableEq

/-- The acceptable-value collection of one pattern entry. -/
def accVals : PatV → List String
  | .one v => [v]
  | .many vs => vs

/-- A pattern: a mapping from attribute to acceptable value(s). -/
abbrev Pattern := List (String × PatV)

/-- `TripleStore._entity_match`: `all(entity[k].intersection(...) for k, v in
pattern.items())`.  `entity[k]` materializes `k` in this entity's row; `all`
short-circuits at the first empty intersection.  Returns the (possibly
materialized) row and the match verdict. -/
def entityMatch : Row → Pattern → Row × Bool
  | row, [] => (row, true)
  | row, (k, pv) :: rest =>
      if ((matI row k).2).any (· ∈ accVals pv) then entityMatch ((matI row k).1) rest
      else ((matI row k).1, false)

/-- The entity loop of `match_pattern` over the index's entries, rebuilding
each (possibly materialized) row and collecting the matching eids in order. -/
def matchFold (l : Idx) (pat : Pattern) : Idx × List String :=
  l.foldl
    (fun (acc : Idx × List String) ent =>
      (acc.1 ++ [(ent.1, (entityMatch ent.2 pat).1)],
       if (entityMatch ent.2 pat).2 then acc.2 ++ [ent.1] else acc.2))
    ([], [])

/-- `TripleStore.match_pattern`: iterate the EAV index's entries, test each
entity, and collect the matching eids (a Python set; modelled as the list of
matching keys in index order, which is duplicate-free for well-formed stores). -/
def matchPattern (s : Store) (pat : Pattern) : Store × List String :=
  ({ s with eav := (matchFold s.eav pat).1 }, (matchFold s.eav pat).2)

/-! ## Fact assertion engine -/

/-- A Python value inside a fact dictionary: a literal (modelled as a string),
a nested entity dictionary, or a list of values. -/
inductive FVal where
  | prim (v : String)
  | sub (d : List (String × FVal))
  | many (vs : List FVal)

/-- A fact dictionary: mapping from attribute to value. -/
abbrev Fact := List (String × FVal)

/-- Python truthiness of a fact value (`if ident_val:` etc.): empty string,
empty dict and empty list are falsy. -/
def fvTruthy : FVal → Bool
  | .prim v => v ≠ ""
  | .sub d => ¬ d.isEmpty
  | .many l => ¬ l.isEmpty

/-- `str(..)` applied to a fact value.  For literals this is the string itself.
For dicts/lists Python would produce their `repr` text; the exact text is
immaterial to every verified claim (no claim ever equates such an eid with
anything), so the model uses a structural stand-in. -/
def pyStrFV : FVal → String
  | .prim v => v
  | .sub _ => "pyrepr:dict"
  | .many _ => "pyrepr:list"

/-- The fresh eid produced by the n-th call to `uuid.uuid1()` (model: distinct
tokens indexed by the store's counter). -/
def genId (n : Nat) : String := "uuid:" ++ toString n

/-- The per-batch identity-resolution table `_ids`
(`defaultdict(dict)`: natural-key attribute → value → eid). -/
abbrev IdTable := List (String × List (String × String))

/-- `_ids[a].get(val)`. -/
def idGet (t : IdTable) (a v : String) : Option String :=
  (lookupA t a).bind (fun m => lookupA m v)

/-- `_ids[a][val] = eid`. -/
def idSet (t : IdTable) (a v eid : String) : IdTable :=
  setA t a (setA ((lookupA t a).getD []) v eid)

/-- `TripleStore._resolve_eid`.  Returns the resolved eid (already passed
through `str`), the updated resolution table, and the store (whose fresh-id
counter may advance).  Using a dict or list as a natural-key value raises
`TypeError` (unhashable dictionary key in `_ids[a].get(fact_dict[a])`). -/
def resolveEid (s : Store) (fact : Fact) (idAttrs : List String) (ids : IdTable) :
    Except PyErr (String × IdTable × Store) := do
  let identVal := lookupA fact s.identAttr
  if idAttrs.isEmpty then
    -- `eid = ident_val or uuid.uuid1()`
    match identVal with
    | some iv =>
        if fvTruthy iv then .ok (pyStrFV iv, ids, s)
        else .ok (genId s.nextId, ids, { s with nextId := s.nextId + 1 })
    | none => .ok (genId s.nextId, ids, { s with nextId := s.nextId + 1 })
  else
    -- id_facts = {a: _ids[a].get(fact_dict[a]) for a in id_attrs if a in fact_dict}
    let idFacts ← idAttrs.foldlM
      (fun (acc : List (String × Option String)) a =>
        match lookupA fact a with
        | none => .ok acc
        | some fv =>
            match fv with
            | .prim v => .ok (setA acc a (idGet ids a v))
            | _ => .error .typeErr)
      ([] : List (String × Option String))
    match identVal with
    | some iv =>
        if fvTruthy iv then
          -- record (attribute, value) -> ident for every natural key present
          -- (the conflicting-values warning is a print; no state effect)
          let ids1 := idFacts.foldl
            (fun acc kv =>
              match lookupA fact kv.1 with
              | some (.prim v) => idSet acc kv.1 v (pyStrFV iv)
              | _ => acc)
            ids
          .ok (pyStrFV iv, ids1, s)
        else resolveEidNoIdent s fact idFacts ids
    | none => resolveEidNoIdent s fact idFacts ids
where
  /-- The `else` branch of `_resolve_eid` (no truthy explicit identity):
  collect the recorded eids; use one if any (Python takes the last yielded by
  set iteration; a one-element set — the only case the claims touch — is
  unambiguous), else mint a fresh eid and record it under every natural key. -/
  resolveEidNoIdent (s : Store) (fact : Fact)
      (idFacts : List (String × Option String)) (ids : IdTable) :
      Except PyErr (String × IdTable × Store) :=
    let eids := (idFacts.filterMap Prod.snd).filter (· ≠ "") |>.dedup
    match eids.getLast? with
    | some e => .ok (e, ids, s)
    | none =>
        let eid := genId s.nextId
        let ids1 := idFacts.foldl
          (fun acc kv =>
            match lookupA fact kv.1 with
            | some (.prim v) => idSet acc kv.1 v eid
            | _ => acc)
          ids
        .ok (eid, ids1, { s with nextId := s.nextId + 1 })

/-- A pending step of the mutually recursive `_assert_val` / `_assert_vals` /
`_assert_dict` engine (the per-item loop of `_assert_dict` is `items`).
Collapsing the mutual recursion into one fuel-indexed function keeps the model
definitionally computable; `factFuel` below always suffices. -/
inductive AJob where
  | val (e a : String) (v : FVal)
  | vals (e a : String) (vs : List FVal)
  | items (e : String) (its : List (String × FVal))
  | dict (fact : Fact)

/-- The fact-assertion engine.  The four cases are, verbatim:

* `val`: `TripleStore._assert_val` — a dict value is asserted recursively and
  the resulting eid linked; a literal is asserted directly; a bare list value
  reaching `_assert_triple` would be unhashable (`set.add(list)`): `TypeError`.
* `vals`: `TripleStore._assert_vals`.
* `items`: the `for a, v in fact_dict.items()` loop of `_assert_dict` — list
  values go through `_assert_vals`, others through `_assert_val`.
* `dict`: `TripleStore._assert_dict` — resolve the eid, assert every key/value
  pair, then assert the identity attribute if the fact does not carry a truthy
  one (that final `_assert_val` receives the eid string, a plain literal, so it
  is exactly an `_assert_triple`).

The result's last component is the eid (`dict` jobs only). -/
def assertJob : Nat → Store → IdTable → List String → AJob →
    Except PyErr (Store × IdTable × Option String)
  | 0, _, _, _, _ => .error .fuelOut
  | n + 1, s, ids, idAttrs, job =>
    match job with
    | .val e a v =>
        match v with
        | .prim w => do .ok (← assertTriple s e a w, ids, none)
        | .sub d => do
            let (s1, ids1, eid?) ← assertJob n s ids idAttrs (.dict d)
            let eid := eid?.getD ""
            .ok (← assertTriple s1 e a eid, ids1, none)
        | .many _ => .error .typeErr
    | .vals e a vs =>
        match vs with
        | [] => .ok (s, ids, none)
        | v :: rest => do
            let (s1, ids1, _) ← assertJob n s ids idAttrs (.val e a v)
            assertJob n s1 ids1 idAttrs (.vals e a rest)
    | .items e its =>
        match its with
        | [] => .ok (s, ids, none)
        | (a, v) :: rest => do
            let (s1, ids1, _) ←
              match v with
              | .many vs => assertJob n s ids idAttrs (.vals e a vs)
              | w => assertJob n s ids idAttrs (.val e a w)
            assertJob n s1 ids1 idAttrs (.items e rest)
    | .dict fact => do
        let (eid, ids1, s1) ← resolveEid s fact idAttrs ids
        let (s2, ids2, _) ← assertJob n s1 ids1 idAttrs (.items eid fact)
        match lookupA fact s.identAttr with
        | some iv =>
            if fvTruthy iv then .ok (s2, ids2, some eid)
            else do .ok (← assertTriple s2 eid s.identAttr eid, ids2, some eid)
        | none => do .ok (← assertTriple s2 eid s.identAttr eid, ids2, some eid)

mutual

/-- Fuel sufficient to run `assertJob` on a fact value. -/
def fvalFuel : FVal → Nat
  | .prim _ => 1
  | .sub d => factFuel d + 1
  | .many vs => valsFuel vs + 1

/-- Fuel sufficient for a list of fact values. -/
def valsFuel : List FVal → Nat
  | [] => 1
  | v :: rest => fvalFuel v + valsFuel rest + 1

/-- Fuel sufficient for a fact dictionary's item list. -/
def factFuel : List (String × FVal) → Nat
  | [] => 2
  | (_, v) :: rest => fvalFuel v + factFuel rest + 2

end

/-- `TripleStore._assert_dict` (with always-sufficient fuel). -/
def assertDict (s : Store) (ids : IdTable) (fact : Fact) (idAttrs : List String) :
    Except PyErr (Store × IdTable × String) := do
  let (s1, ids1, eid?) ← assertJob (factFuel fact) s ids idAttrs (.dict fact)
  .ok (s1, ids1, eid?.getD "")

/-- A fact as accepted by `assert_fact`: a single eav triple or a dictionary. -/
inductive TFact where
  | triple (e a v : String)
  | dict (f : Fact)

/-- `TripleStore.assert_fact`: dictionaries return the resolved eid, triples
return `None`. -/
def assertFact (s : Store) (ids : IdTable) (tf : TFact) (idAttrs : List String) :
    Except PyErr (Store × IdTable × Option String) :=
  match tf with
  | .dict f => do
      let (s1, ids1, eid) ← assertDict s ids f idAttrs
      .ok (s1, ids1, some eid)
  | .triple e a v => do .ok (← assertTriple s e a v, ids, none)

/-- The per-item loop of `TripleStore.assert_facts` over a sequence of facts,
sharing one identity-resolution table across the whole call.  Python discards
each item's eid; the model collects them so identity resolution is observable. -/
def assertFactsList (s : Store) (ids : IdTable) (facts : List TFact)
    (idAttrs : List String) : Except PyErr (Store × IdTable × List (Option String)) :=
  match facts with
  | [] => .ok (s, ids, [])
  | f :: rest => do
      let (s1, ids1, eid) ← assertFact s ids f idAttrs
      let (s2, ids2, eids) ← assertFactsList s1 ids1 rest idAttrs
      .ok (s2, ids2, eid :: eids)

/-- `TripleStore.assert_facts` applied to a sequence of facts (the list
branch: `_ids = _ids or collections.defaultdict(dict)` starts a fresh shared
table). -/
def assertFacts (s : Store) (facts : List TFact) (idAttrs : List String) :
    Except PyErr (Store × List (Option String)) := do
  let (s1, _, eids) ← assertFactsList s [] facts idAttrs
  .ok (s1, eids)

/-- `Entity.__init__`: `self._entity = graph._eav_index[eid]` materializes the
eid as an outer key of the EAV index (this is all of the construction's effect
on the store). -/
def entityInit (s : Store) (eid : String) : Store :=
  { s with eav := (matO s.eav eid).1 }

/-! ## Pull evaluator (Python 3 semantics) -/

/-- One token of a pull expression: a string token (a plain attribute, a
reverse-lookup name, or `'*'`), or a dictionary whose values are either the
recursion marker `'...'` (modelled by `none`) or a nested sub-expression. -/
inductive PTok where
  | s (t : String)
  | d (pairs : List (String × Option (List PTok)))

/-- A value in a pull result: a raw stored value set, a collapsed scalar
(`some(vs)`, possibly `None`), a list of nested pull results, or a collapsed
nested result. -/
inductive PV where
  | vals (vs : List String)
  | scalar (v : Option String)
  | subs (rs : List (List (String × PV)))
  | sub (r : Option (List (String × PV)))

/-- A pull result: the `pull_data` dictionary. -/
abbrev PullRes := List (String × PV)

/-- The `entity` argument of `pull`: an eid literal or a pattern dictionary. -/
inductive PTarget where
  | eid (e : String)
  | pat (p : Pattern)

/-- `self._eav_index[e][a]` as used inside `pull` (`_entity[attr]`): live
access to the entity's row, materializing both keys. -/
def matEAV (s : Store) (e a : String) : Store × Vals :=
  let (eav1, vs) := mat2 s.eav e a
  ({ s with eav := eav1 }, vs)

/-- `self._vae_index[e][a]`. -/
def matVAE (s : Store) (e a : String) : Store × Vals :=
  let (vae1, vs) := mat2 s.vae e a
  ({ s with vae := vae1 }, vs)

/-- The lazy-reference reverse scan
`set(e for e, attrs in self._eav_index.items() if eid in attrs[reverse])`;
`attrs[reverse]` materializes `reverse` in every entity's row. -/
def lazyScan (s : Store) (rev eid : String) : Store × List String :=
  let step := s.eav.foldl
    (fun (acc : Idx × List String) ent =>
      let (row1, vs) := matI ent.2 rev
      (acc.1 ++ [(ent.1, row1)], if eid ∈ vs then acc.2 ++ [ent.1] else acc.2))
    ([], [])
  ({ s with eav := step.1 }, step.2)

/-- The `normal_attributes` filter: string tokens that are not `'*'` and not
reverse-lookup names (`x not in {'*'} and not reverse_lookup(x)`; the
short-circuit keeps `reverse_lookup` from seeing `'*'`). -/
def filterNormals : List String → Except PyErr (List String)
  | [] => .ok []
  | a :: rest =>
      if a = "*" then filterNormals rest
      else do
        match ← reverseLookup a with
        | some _ => filterNormals rest
        | none => do .ok (a :: (← filterNormals rest))

/-- `pull_data = {attr: _entity[attr] for attr in normal_attributes}`. -/
def pullNormals (s : Store) (eid : String) : List String → PullRes → Store × PullRes
  | [], acc => (s, acc)
  | a :: rest, acc =>
      let (s1, vs) := matEAV s eid a
      pullNormals s1 eid rest (setA acc a (.vals vs))

/-- The result-shaping loop
`for a, vs in pull_data.items(): pull_data[a] = some(vs) if self._card_one(a) else vs`.
`some` takes the first element of a set or list (or `None` when empty) and
returns a non-iterable value unchanged. -/
def shapePullData (s : Store) : PullRes → Except PyErr (Store × PullRes)
  | [] => .ok (s, [])
  | (a, pv) :: rest => do
      let (s1, c1) ← cardOne s a
      let pv1 :=
        if c1 then
          match pv with
          | .vals vs => PV.scalar vs.head?
          | .subs rs => PV.sub rs.head?
          | x => x
        else pv
      let (s2, rest1) ← shapePullData s1 rest
      .ok (s2, (a, pv1) :: rest1)

/-- The type of the recursive `self.pull` callback threaded through the loop
helpers below: store, pull expression (possibly `None`), eid, seen set
(possibly `None`), base pattern. -/
abbrev PullRec :=
  Store → Option (List PTok) → String → Option (List String) → Option (List PTok) →
    Except PyErr (Store × PullRes)

/-- `results = [self.pull(token, e, _base_pattern=.., _seen_entities=..) for e in eids]`. -/
def pullEids (rec : PullRec) (s : Store) (tokExpr : Option (List PTok))
    (eids : List String) (seen : Option (List String)) (basePat : Option (List PTok)) :
    Except PyErr (Store × List PullRes) :=
  match eids with
  | [] => .ok (s, [])
  | e :: rest => do
      let (s1, r) ← rec s tokExpr e seen basePat
      let (s2, rs) ← pullEids rec s1 tokExpr rest seen basePat
      .ok (s2, r :: rs)

/-- The `for dict_pattern in dict_patterns: for attr, token in
dict_pattern.items()` loops of `pull` (the dictionaries' pairs concatenated;
state threads through uniformly).  Carries the mutable locals `pull_data` and
`_seen_entities`. -/
def pullPairs (rec : PullRec) (s : Store) (eid : String)
    (pairs : List (String × Option (List PTok))) (pd : PullRes)
    (seen : Option (List String)) (toks : List PTok) (basePat : Option (List PTok)) :
    Except PyErr (Store × PullRes × Option (List String)) :=
  match pairs with
  | [] => .ok (s, pd, seen)
  | (attr, tok) :: rest => do
      let rev ← reverseLookup attr
      let (s1, eids) ←
        match rev with
        | some realAttr => do
            let (sa, isRef) ← refAttr s realAttr
            if isRef then .ok (matVAE sa eid realAttr)
            else if sa.lazyRefs then .ok (lazyScan sa realAttr eid)
            else .error .nameErr
              -- after the printed warning, `eids` is unbound on this branch:
              -- NameError on a first iteration (a later iteration would reuse a
              -- stale binding; no verified claim reaches this configuration)
        | none => .ok (matEAV s eid attr)
      let (s2, tokExpr, seen1) :=
        match tok with
        | none =>
            -- the '...' marker: `_seen_entities = _seen_entities.update(_entity[attr])`
            -- materializes `attr` in the entity's row and then destroys the
            -- seen set (`set.update` returns None); `token = _base_pattern`
            -- is the enclosing call's base pattern, None at the top level.
            let (s', _) := matEAV s1 eid attr
            (s', basePat, (none : Option (List String)))
        | some sub => (s1, some sub, seen)
      let basePat1 :=
        match basePat with
        | some (l@(_ :: _)) => some l
        | _ => some toks     -- `_base_pattern or pull_expr`: an empty list is falsy
      let (s3, results) ← pullEids rec s2 tokExpr eids seen1 basePat1
      pullPairs rec s3 eid rest (setA pd attr (.subs results)) seen1 toks basePat

/-- `TripleStore.pull`, with fuel for the recursion (`.fuelOut` is the
artificial out-of-fuel result; every other outcome is what the Python call
produces).  Reproduces the Python 3 iterator semantics: the base-level
reverse-lookup loop and the `'*'` wildcard test read the already-exhausted
`attr_patterns` iterator and therefore never contribute. -/
def pullF : Nat → Store → Option (List PTok) → PTarget → Option (List String) →
    Option (List PTok) → Except PyErr (Store × PullRes)
  | 0, _, _, _, _, _ => .error .fuelOut
  | Nat.succ fuel, s, expr, tgt, seen0, basePat =>
    match tgt with
    | .pat p =>
        let (_s1, _eids) := matchPattern s p
        .error .typeErr  -- `eids[0]`: a Python set does not support indexing
    | .eid eid =>
      match expr with
      | none => .error .typeErr  -- `filter(lambda .., None)`: None is not iterable
      | some toks => do
          let (eav1, _row) := matO s.eav eid   -- `_entity = self._eav_index[eid]`
          let s1 := { s with eav := eav1 }
          -- `_seen_entities = _seen_entities or {eid}` (an empty set is falsy)
          let seen1 : List String :=
            match seen0 with
            | some (l@(_ :: _)) => l
            | _ => [eid]
          let dictPairs := (toks.filterMap fun t =>
              match t with | .d ps => some ps | _ => none).flatten
          let attrToks := toks.filterMap fun t =>
              match t with | .s a => some a | _ => none
          let normals ← filterNormals attrToks
          let (s2, pd0) := pullNormals s1 eid normals []
          let (s3, pd1, _seen2) ←
            pullPairs (fun st te e sn bp => pullF fuel st te (.eid e) sn bp)
              s2 eid dictPairs pd0 (some seen1) toks basePat
          shapePullData s3 pd1

/-- The public `pull(pull_expr, entity)` call (default arguments
`_seen_entities=None`, `_base_pattern=None`), under the given fuel. -/
def pull (fuel : Nat) (s : Store) (toks : List PTok) (tgt : PTarget) :
    Except PyErr (Store × PullRes) :=
  pullF fuel s (some toks) tgt none none

/-! ## The constructor (`TripleStore.__init__` with no arguments) -/

/-- The store state entering `__init__`'s first `assert_facts` call: empty
indices, cardinality-many default, lazy refs, `db:ident` identity attribute. -/
def blankStore : Store :=
  { eav := [], vae := [], defaultCardinality := "db.cardinality:many",
    lazyRefs := true, identAttr := "db:ident", nextId := 0 }

/-- `base_schema(ident_attr)` (module level).  Note the faithful `'db.cardinality'`
(dot, not colon) key in the `db.cardinality:default` entity — it is not the
`db:cardinality` meta-attribute. -/
def baseSchema (identAttr : String) : List TFact :=
  [.dict [(identAttr, .prim "db:schema"),
          ("db:attributes", .many [
            .sub [(identAttr, .prim "db:cardinality"),
                  ("db:cardinality", .prim "db.cardinality:one")],
            .sub [(identAttr, .prim "db:valueType"),
                  ("db:cardinality", .prim "db.cardinality:one")],
            .sub [(identAttr, .prim "db.schema:attributes"),
                  ("db:cardinality", .prim "db.cardinality:many"),
                  ("db:valueType", .prim "db.type:ref")],
            .sub [(identAttr, .prim "db.schema:types"),
                  ("db:cardinality", .prim "db.cardinality:many"),
                  ("db:valueType", .prim "db.type:ref")],
            .sub [(identAttr, .prim "db.refs:lazy"),
                  ("db:cardinality", .prim "db.cardinality:one")],
            .sub [(identAttr, .prim "db.cardinality:default"),
                  ("db.cardinality", .prim "db.cardinality:one")]])]]

/-- `TripleStore.__init__()` with no arguments: assert the bootstrap schema,
pull the (empty, under Python 3) schema settings back, and re-assert the
resolved store-wide settings (`db.refs:lazy` is the Python boolean `True`,
encoded as the token `"True"`). -/
def mkStoreE : Except PyErr Store := do
  let (s1, _) ← assertFacts blankStore (baseSchema "db:ident") []
  let (s2, _) ← pull 10 s1 [PTok.s "*"] (.eid "db:schema")
  let (s3, _, _) ← assertFact s2 []
    (.dict [("db:ident", .prim "db:schema"),
            ("db.refs:lazy", .prim "True"),
            ("db.cardinality:default", .prim "db.cardinality:many")]) []
  .ok s3

/-- The freshly constructed store (`mkStoreE` is proved to succeed below). -/
def mkStore : Store := (mkStoreE.toOption).getD blankStore

/-! ## Association-list lemmas -/

theorem lookupA_setA {α : Type} (l : List (String × α)) (k k' : String) (v : α) :
    lookupA (setA l k v) k' = if k = k' then some v else lookupA l k' := by
  induction l with
  | nil => simp [setA, lookupA]
  | cons hd tl ih =>
      obtain ⟨k0, v0⟩ := hd
      simp only [setA]
      by_cases h0 : k0 = k
      · subst h0
        simp only [if_pos rfl, lookupA]
        by_cases h1 : k0 = k' <;> simp [h1]
      · simp only [if_neg h0, lookupA]
        by_cases h1 : k0 = k'
        · subst h1
          have hkk : ¬ k = k0 := fun h => h0 h.symm
          simp [hkk]
        · simp [h1, ih]

theorem lookupA_append {α : Type} (l l2 : List (String × α)) (k : String) :
    lookupA (l ++ l2) k =
      match lookupA l k with
      | some v => some v
      | none => lookupA l2 k := by
  induction l with
  | nil => simp [lookupA]
  | cons hd tl ih =>
      obtain ⟨k0, v0⟩ := hd
      by_cases h : k0 = k <;> simp [lookupA, h, ih]

theorem setA_lookup_eq {α : Type} (l : List (String × α)) (k : String) (v : α)
    (h : lookupA l k = some v) : setA l k v = l := by
  induction l with
  | nil => simp [lookupA] at h
  | cons hd tl ih =>
      obtain ⟨k0, v0⟩ := hd
      by_cases h0 : k0 = k
      · subst h0
        simp [lookupA] at h
        simp [setA, h]
      · simp [lookupA, h0] at h
        simp [setA, h0, ih h]

theorem keysOf_setA {α : Type} (l : List (String × α)) (k : String) (v : α)
    (h : (lookupA l k).isSome) : keysOf (setA l k v) = keysOf l := by
  induction l with
  | nil => simp [lookupA] at h
  | cons hd tl ih =>
      obtain ⟨k0, v0⟩ := hd
      by_cases h0 : k0 = k
      · simp [setA, h0, keysOf]
      · simp [lookupA, h0] at h
        simp [setA, h0, keysOf] at ih ⊢
        exact ih h

theorem lookupA_isSome_setA {α : Type} (l : List (String × α)) (k k' : String) (v : α)
    (h : (lookupA l k').isSome) : (lookupA (setA l k v) k').isSome := by
  rw [lookupA_setA]
  by_cases hk : k = k' <;> simp [hk, h]

/-- `matO` on a present key is the identity, returning the stored row. -/
theorem matO_present (idx : Idx) (k : String) (r : Row) (h : lookupA idx k = some r) :
    matO idx k = (idx, r) := by
  simp [matO, h]

theorem matO_absent (idx : Idx) (k : String) (h : lookupA idx k = none) :
    matO idx k = (idx ++ [(k, [])], []) := by
  simp [matO, h]

/-- The row returned by `matO` is the `getD []` view of the index. -/
theorem matO_snd (idx : Idx) (k : String) : (matO idx k).2 = (lookupA idx k).getD [] := by
  unfold matO
  cases h : lookupA idx k <;> simp

theorem lookupA_matO (idx : Idx) (k k' : String) :
    lookupA (matO idx k).1 k' =
      if k = k' then some ((lookupA idx k).getD []) else lookupA idx k' := by
  unfold matO
  cases h : lookupA idx k with
  | some r =>
      by_cases hk : k = k' <;> simp [hk]
      subst hk; simp [h]
  | none =>
      by_cases hk : k = k'
      · subst hk; simp [lookupA_append, h, lookupA]
      · simp [lookupA_append, hk]
        cases h' : lookupA idx k' <;> simp [lookupA, hk, h']

theorem matI_snd (row : Row) (a : String) : (matI row a).2 = (lookupA row a).getD [] := by
  unfold matI
  cases h : lookupA row a <;> simp

theorem lookupA_matI (row : Row) (a a' : String) :
    lookupA (matI row a).1 a' =
      if a = a' then some ((lookupA row a).getD []) else lookupA row a' := by
  unfold matI
  cases h : lookupA row a with
  | some r =>
      by_cases hk : a = a' <;> simp [hk]
      subst hk; simp [h]
  | none =>
      by_cases hk : a = a'
      · subst hk; simp [lookupA_append, h, lookupA]
      · simp [lookupA_append, hk]
        cases h' : lookupA row a' <;> simp [lookupA, hk, h']

/-! `getVals` through the index operations. -/

theorem getVals_def (idx : Idx) (e a : String) :
    getVals idx e a = (lookupA ((lookupA idx e).getD []) a).getD [] := by
  unfold getVals
  cases h : lookupA idx e with
  | none => simp [lookupA]
  | some row =>
      simp only [Option.getD_some]
      cases h' : lookupA row a <;> simp [h']

theorem mat2_snd (idx : Idx) (e a : String) : (mat2 idx e a).2 = getVals idx e a := by
  unfold mat2
  simp [matI_snd, matO_snd, getVals_def]

/-- The first component of `mat2`: the row of `e` gains a (possibly empty)
entry for `a`; everything else is untouched. -/
theorem lookupA_mat2 (idx : Idx) (e a x : String) :
    lookupA (mat2 idx e a).1 x =
      if e = x then some (matI ((lookupA idx e).getD []) a).1 else lookupA idx x := by
  unfold mat2
  simp only [lookupA_setA, lookupA_matO, matO_snd]
  by_cases h : e = x <;> simp [h]

theorem getVals_mat2 (idx : Idx) (e a x y : String) :
    getVals (mat2 idx e a).1 x y = getVals idx x y := by
  simp only [getVals_def, lookupA_mat2]
  by_cases h : e = x
  · subst h
    simp only [if_pos rfl, Option.getD_some, lookupA_matI]
    by_cases h' : a = y
    · subst h'; simp [lookupA_matI]
    · simp [lookupA_matI, h']
  · simp [h]

theorem lookupA_addT (idx : Idx) (e a v x : String) :
    lookupA (addT idx e a v) x =
      if e = x then
        some (setA (matI ((lookupA idx e).getD []) a).1 a
               (addVal (getVals idx e a) v))
      else lookupA idx x := by
  unfold addT
  simp only [lookupA_setA, lookupA_matO, matO_snd, matI_snd, getVals_def]
  by_cases h : e = x <;> simp [h]

theorem getVals_addT_self (idx : Idx) (e a v : String) :
    getVals (addT idx e a v) e a = addVal (getVals idx e a) v := by
  simp only [getVals_def, lookupA_addT, if_pos rfl, Option.getD_some]
  simp [lookupA_setA]

theorem getVals_addT_ne (idx : Idx) (e a v x y : String) (h : ¬(x = e ∧ y = a)) :
    getVals (addT idx e a v) x y = getVals idx x y := by
  simp only [getVals_def, lookupA_addT]
  by_cases hx : e = x
  · subst hx
    have hy : ¬ a = y := fun hy => h ⟨rfl, hy.symm⟩
    simp [lookupA_setA, lookupA_matI, hy]
  · simp [hx]

theorem mem_addVal (vs : Vals) (v z : String) : z ∈ addVal vs v ↔ z ∈ vs ∨ z = v := by
  unfold addVal
  by_cases h : v ∈ vs
  · simp only [if_pos h]
    constructor
    · exact Or.inl
    · rintro (hz | rfl)
      · exact hz
      · exact h
  · simp [h]

theorem memT_addT (idx : Idx) (e a v x y z : String) :
    memT (addT idx e a v) x y z ↔ (memT idx x y z ∨ (x = e ∧ y = a ∧ z = v)) := by
  unfold memT
  by_cases hxy : x = e ∧ y = a
  · obtain ⟨hx, hy⟩ := hxy
    subst hx; subst hy
    rw [getVals_addT_self, mem_addVal]
    tauto
  · rw [getVals_addT_ne _ _ _ _ _ _ hxy]
    tauto

theorem memT_mat2 (idx : Idx) (e a x y z : String) :
    memT (mat2 idx e a).1 x y z ↔ memT idx x y z := by
  unfold memT; rw [getVals_mat2]

theorem getVals_matO (idx : Idx) (k x y : String) :
    getVals (matO idx k).1 x y = getVals idx x y := by
  simp only [getVals_def, lookupA_matO]
  by_cases h : k = x
  · subst h; simp
  · simp [h]

/-! ## Concrete scenario stores (built from `mkStore` through the public API) -/

/-- `mkStoreE` succeeds and produces `mkStore`: the constructor model computes. -/
theorem mkStoreE_ok : mkStoreE = .ok mkStore := by rfl

/-- A store with `person:name` schema-declared cardinality-one, holding
`(e1, person:name, v1)`. -/
def cardOneStoreE : Except PyErr Store := do
  let (s1, _, _) ← assertFact mkStore []
    (.dict [("db:ident", .prim "person:name"),
            ("db:cardinality", .prim "db.cardinality:one")]) []
  assertTriple s1 "e1" "person:name" "v1"

def cardOneStore : Store := cardOneStoreE.toOption.getD blankStore

theorem cardOneStoreE_ok : cardOneStoreE = .ok cardOneStore := by rfl

/-- A store with `my:p` schema-declared reference-typed and a reference cycle
`A → B → A` through `my:p`. -/
def cycleStoreE : Except PyErr Store := do
  let (s1, _, _) ← assertFact mkStore []
    (.dict [("db:ident", .prim "my:p"),
            ("db:valueType", .prim "db.type:ref")]) []
  let s2 ← assertTriple s1 "A" "my:p" "B"
  assertTriple s2 "B" "my:p" "A"

def cycleStore : Store := cycleStoreE.toOption.getD blankStore

theorem cycleStoreE_ok : cycleStoreE = .ok cycleStore := by rfl

/-! ## Claim theorems -/

/-- **C2** (code bug).  `person:name` is cardinality-one in `cardOneStore` and
`e1` already holds the single value `v1` for it; asserting `(e1, person:name, v2)`
with `v2 ≠ v1` does not replace the value — it raises `TypeError`, because the
replacement path invokes `self._retract_triple(self, (e, a, x))` with an extra
positional argument.  The claimed result (value set exactly `{v2}`) is never
produced. -/
theorem C2_cardOne_replacement_raises :
    (cardOne cardOneStore "person:name").map Prod.snd = .ok true
    ∧ getVals cardOneStore.eav "e1" "person:name" = ["v1"]
    ∧ assertTriple cardOneStore "e1" "person:name" "v2" = .error .typeErr := by
  exact ⟨rfl, rfl, rfl⟩

/-- **C3** (code bug).  `cycleStore` holds the declared reference cycle
`A → B → A`.  Pulling `A` with the recursive expression
`[{'my:p': '...'}]` does not terminate with a finite nested structure:
the evaluator never consults `_seen_entities` (and destroys it via
`_seen_entities = _seen_entities.update(..)`, which returns `None`), and the
recursion marker substitutes `token = _base_pattern`, which is `None` at the
top level, so expanding the nonempty reference set calls `pull(None, ..)` and
`filter(lambda .., None)` raises `TypeError` — for every recursion budget. -/
theorem C3_cycle_pull_raises :
    memT cycleStore.eav "A" "my:p" "B"
    ∧ memT cycleStore.eav "B" "my:p" "A"
    ∧ (refAttr cycleStore "my:p").map Prod.snd = .ok true
    ∧ ∀ fuel : Nat,
        pull (fuel + 2) cycleStore [PTok.d [("my:p", none)]] (.eid "A") =
          .error .typeErr := by
  refine ⟨by decide, by decide, rfl, fun fuel => rfl⟩

/-- **C7** (code bug).  Entity `A` of `cycleStore` stores the attribute `my:p`
with value set `{B}`, yet `pull(['*'], A)` returns the empty mapping for every
recursion budget: under Python 3 the `attr_patterns` filter iterator is already
exhausted by the `normal_attributes` comprehension when `'*' in attr_patterns`
is evaluated, so the wildcard branch never runs, contradicting `pull`'s own
docstring. -/
theorem C7_wildcard_returns_nothing :
    getVals cycleStore.eav "A" "my:p" = ["B"]
    ∧ ∀ fuel : Nat,
        pull (fuel + 1) cycleStore [PTok.s "*"] (.eid "A") = .ok (cycleStore, []) := by
  exact ⟨rfl, fun fuel => rfl⟩

/-! ### C9: the empty pattern matches every entity -/

theorem entityMatch_nil (row : Row) : entityMatch row [] = (row, true) := rfl

theorem matchPattern_empty_aux (l : Idx) (acc1 : Idx) (acc2 : List String) :
    l.foldl
      (fun (acc : Idx × List String) ent =>
        (acc.1 ++ [(ent.1, (entityMatch ent.2 []).1)],
         if (entityMatch ent.2 []).2 then acc.2 ++ [ent.1] else acc.2))
      (acc1, acc2) = (acc1 ++ l, acc2 ++ keysOf l) := by
  induction l generalizing acc1 acc2 with
  | nil => simp [keysOf]
  | cons hd tl ih =>
      rw [List.foldl_cons]
      exact Eq.trans (ih (acc1 ++ [(hd.1, hd.2)]) (acc2 ++ [hd.1])) (by simp [keysOf])

/-- **C9** (confirmed).  `match_pattern` with the empty pattern returns exactly
the keys of the forward EAV index (every entity matches the empty conjunction),
and leaves the store unchanged. -/
theorem C9_empty_pattern_matches_all (s : Store) :
    matchPattern s [] = (s, keysOf s.eav) := by
  unfold matchPattern matchFold
  rw [matchPattern_empty_aux]
  simp

/-! ### C4: retraction fails loudly forward, no-ops reverse -/

/-- **C4** (confirmed).  Retracting `(e,a,v)` when `v` is absent from
`EAV[e][a]` raises `KeyError` (`set.remove`), a distinguishable error rather
than a silent no-op; when `v` is present, the retraction succeeds even if the
reverse index has no corresponding entry, and in that case the reverse index's
triple contents are untouched. -/
theorem C4_retract_forward_loud_reverse_noop (s : Store) (e a v : String) :
    (v ∉ getVals s.eav e a → retractTriple s e a v = .error .keyErr)
    ∧ (v ∈ getVals s.eav e a →
        ∃ s', retractTriple s e a v = .ok s'
          ∧ (e ∉ getVals s.vae v a →
              ∀ x y z, memT s'.vae x y z ↔ memT s.vae x y z)) := by
  constructor
  · intro hv
    unfold retractTriple
    rw [mat2_snd, if_neg hv]
  · intro hv
    unfold retractTriple
    rw [mat2_snd, if_pos hv]
    unfold retractTriple.retractReverse
    dsimp only
    rw [matO_snd]
    by_cases hre : ((lookupA s.vae v).getD []).isEmpty
    · rw [if_pos hre]
      refine ⟨_, rfl, fun _ x y z => ?_⟩
      show memT (matO s.vae v).1 x y z ↔ memT s.vae x y z
      unfold memT
      rw [getVals_matO]
    · rw [if_neg hre]
      rw [matI_snd, ← getVals_def]
      by_cases hge : ¬ (getVals s.vae v a).isEmpty ∧ e ∈ getVals s.vae v a
      · rw [if_pos hge]
        exact ⟨_, rfl, fun hne => absurd hge.2 hne⟩
      · rw [if_neg hge]
        refine ⟨_, rfl, fun _ x y z => ?_⟩
        have hb : setA (matO s.vae v).1 v (matI ((lookupA s.vae v).getD []) a).1
            = (mat2 s.vae v a).1 := by
          unfold mat2
          rw [matO_snd]
        dsimp only
        rw [hb]
        exact memT_mat2 s.vae v a x y z

/-- Witness for C4 on `cardOneStore`: retracting the absent value `zzz` raises
`KeyError`; retracting the present `v1` succeeds and, as its reverse entry is
absent, leaves the reverse index's contents untouched. -/
theorem C4_witness :
    retractTriple cardOneStore "e1" "person:name" "zzz" = .error .keyErr
    ∧ ∃ s', retractTriple cardOneStore "e1" "person:name" "v1" = .ok s'
        ∧ (∀ x y z, memT s'.vae x y z ↔ memT cardOneStore.vae x y z) := by
  constructor
  · exact (C4_retract_forward_loud_reverse_noop cardOneStore "e1" "person:name" "zzz").1
      (by decide)
  · obtain ⟨s', h1, h2⟩ :=
      (C4_retract_forward_loud_reverse_noop cardOneStore "e1" "person:name" "v1").2
        (by decide)
    exact ⟨s', h1, h2 (by decide)⟩

/-! ### C6: pattern matching semantics -/

theorem rowD_matI (row : Row) (a y : String) :
    (lookupA (matI row a).1 y).getD [] = (lookupA row y).getD [] := by
  rw [lookupA_matI]
  by_cases h : a = y
  · subst h; simp
  · simp [h]

theorem entityMatch_true_iff (pat : Pattern) (row : Row) :
    (entityMatch row pat).2 = true ↔
      ∀ kv ∈ pat, ∃ v, v ∈ (lookupA row kv.1).getD [] ∧ v ∈ accVals kv.2 := by
  induction pat generalizing row with
  | nil => simp [entityMatch]
  | cons kv rest ih =>
      obtain ⟨k, pv⟩ := kv
      unfold entityMatch
      simp only [List.forall_mem_cons]
      by_cases h : ((matI row k).2).any (· ∈ accVals pv)
      · rw [if_pos h, ih]
        have hhead : ∃ v, v ∈ (lookupA row k).getD [] ∧ v ∈ accVals pv := by
          rcases List.any_eq_true.mp h with ⟨x, hx, hpx⟩
          rw [matI_snd] at hx
          exact ⟨x, hx, by simpa using hpx⟩
        constructor
        · intro hr
          refine ⟨hhead, fun kv2 hkv2 => ?_⟩
          have h2 := hr kv2 hkv2
          rwa [rowD_matI] at h2
        · rintro ⟨-, hr⟩ kv2 hkv2
          have h2 := hr kv2 hkv2
          rwa [← rowD_matI row k] at h2
      · rw [if_neg h]
        have hnh : ¬ ∃ v, v ∈ (lookupA row k).getD [] ∧ v ∈ accVals pv := by
          rintro ⟨v, hv1, hv2⟩
          exact h (List.any_eq_true.mpr
            ⟨v, by rw [matI_snd]; exact hv1, by simpa using hv2⟩)
        simp [hnh]

theorem mem_matchFold_aux (l : Idx) (pat : Pattern) (acc1 : Idx) (acc2 : List String)
    (eid : String) :
    (eid ∈ (l.foldl
      (fun (acc : Idx × List String) ent =>
        (acc.1 ++ [(ent.1, (entityMatch ent.2 pat).1)],
         if (entityMatch ent.2 pat).2 then acc.2 ++ [ent.1] else acc.2))
      (acc1, acc2)).2) ↔
      (eid ∈ acc2 ∨ ∃ row, (eid, row) ∈ l ∧ (entityMatch row pat).2 = true) := by
  induction l generalizing acc1 acc2 with
  | nil => simp
  | cons hd tl ih =>
      obtain ⟨k, row⟩ := hd
      rw [List.foldl_cons]
      by_cases hb : (entityMatch row pat).2 = true
      · have hacc : ((acc1, acc2).1 ++ [((k, row).1, (entityMatch (k, row).2 pat).1)],
            if (entityMatch (k, row).2 pat).2 = true then (acc1, acc2).2 ++ [(k, row).1]
            else (acc1, acc2).2) = (acc1 ++ [(k, (entityMatch row pat).1)], acc2 ++ [k]) := by
          simp [hb]
        rw [hacc, ih]
        simp only [List.mem_append, List.mem_cons, List.not_mem_nil, or_false]
        constructor
        · rintro ((h | rfl) | ⟨row2, h2, h3⟩)
          · exact Or.inl h
          · exact Or.inr ⟨row, Or.inl rfl, hb⟩
          · exact Or.inr ⟨row2, Or.inr h2, h3⟩
        · rintro (h | ⟨row2, (heq | h2), h3⟩)
          · exact Or.inl (Or.inl h)
          · cases heq
            exact Or.inl (Or.inr rfl)
          · exact Or.inr ⟨row2, h2, h3⟩
      · have hacc : ((acc1, acc2).1 ++ [((k, row).1, (entityMatch (k, row).2 pat).1)],
            if (entityMatch (k, row).2 pat).2 = true then (acc1, acc2).2 ++ [(k, row).1]
            else (acc1, acc2).2) = (acc1 ++ [(k, (entityMatch row pat).1)], acc2) := by
          simp [hb]
        rw [hacc, ih]
        simp only [List.mem_cons]
        constructor
        · rintro (h | ⟨row2, h2, h3⟩)
          · exact Or.inl h
          · exact Or.inr ⟨row2, Or.inr h2, h3⟩
        · rintro (h | ⟨row2, (heq | h2), h3⟩)
          · exact Or.inl h
          · cases heq
            exact absurd h3 hb
          · exact Or.inr ⟨row2, h2, h3⟩

theorem lookupA_isSome_iff {α : Type} (l : List (String × α)) (k : String) :
    (lookupA l k).isSome ↔ k ∈ keysOf l := by
  induction l with
  | nil => simp [lookupA, keysOf]
  | cons hd tl ih =>
      obtain ⟨k0, v0⟩ := hd
      by_cases h : k0 = k
      · subst h; simp [lookupA, keysOf]
      · have hne : ¬ k = k0 := fun hh => h hh.symm
        simp [lookupA, keysOf, h, hne, ih]

theorem mem_iff_lookupA {α : Type} (l : List (String × α)) (k : String) (r : α)
    (hnd : (keysOf l).Nodup) : (k, r) ∈ l ↔ lookupA l k = some r := by
  induction l with
  | nil => simp [lookupA]
  | cons hd tl ih =>
      obtain ⟨k0, v0⟩ := hd
      simp only [keysOf, List.map_cons, List.nodup_cons] at hnd
      by_cases h : k0 = k
      · subst h
        simp only [lookupA, if_pos rfl, List.mem_cons]
        constructor
        · rintro (heq | hmem)
          · cases heq; rfl
          · exact absurd ((lookupA_isSome_iff tl k0).mp
              (by rcases hmem with hmem
                  exact Option.isSome_iff_exists.mpr
                    ⟨r, ((ih hnd.2).mp hmem)⟩)) (by simpa [keysOf] using hnd.1)
        · rintro heq
          cases heq
          exact Or.inl rfl
      · simp only [lookupA, if_neg h, List.mem_cons]
        rw [← ih hnd.2]
        constructor
        · rintro (heq | hmem)
          · cases heq; exact absurd rfl h
          · exact hmem
        · exact Or.inr

/-- **C6** (confirmed).  `match_pattern` returns exactly the eids of stored
entities such that, for every attribute in the pattern, the entity's stored
value set for that attribute meets the pattern's acceptable-value collection
(conjunction across attributes, disjunction within each value collection). -/
theorem C6_match_pattern_semantics (s : Store) (pat : Pattern) (eid : String)
    (hnd : (keysOf s.eav).Nodup) :
    eid ∈ (matchPattern s pat).2 ↔
      (eid ∈ keysOf s.eav ∧
        ∀ kv ∈ pat, ∃ v, v ∈ getVals s.eav eid kv.1 ∧ v ∈ accVals kv.2) := by
  unfold matchPattern matchFold
  rw [mem_matchFold_aux]
  simp only [List.not_mem_nil, false_or]
  constructor
  · rintro ⟨row, hmem, hb⟩
    have hl := (mem_iff_lookupA s.eav eid row hnd).mp hmem
    refine ⟨(lookupA_isSome_iff s.eav eid).mp (by simp [hl]), ?_⟩
    intro kv hkv
    have := (entityMatch_true_iff pat row).mp hb kv hkv
    rwa [getVals_def, hl, Option.getD_some]
  · rintro ⟨hk, hall⟩
    obtain ⟨row, hl⟩ := Option.isSome_iff_exists.mp ((lookupA_isSome_iff s.eav eid).mpr hk)
    refine ⟨row, (mem_iff_lookupA s.eav eid row hnd).mpr hl, ?_⟩
    rw [entityMatch_true_iff]
    intro kv hkv
    have := hall kv hkv
    rwa [getVals_def, hl, Option.getD_some] at this

/-- Two people, only one named joe (the spec's matching scenario store). -/
def joeStoreE : Except PyErr Store := do
  let (s1, _) ← assertFacts mkStore
    [.dict [("db:ident", .prim "e1"), ("person:name", .prim "joe")],
     .dict [("db:ident", .prim "e2"), ("person:name", .prim "bob")]] []
  .ok s1

def joeStore : Store := joeStoreE.toOption.getD blankStore

theorem joeStoreE_ok : joeStoreE = .ok joeStore := by rfl

/-- Witness for C6: the one-attribute pattern `{"person:name": "joe"}` against
`joeStore`, instantiated at `e1`. -/
theorem C6_witness :
    "e1" ∈ (matchPattern joeStore [("person:name", PatV.one "joe")]).2 ↔
      ("e1" ∈ keysOf joeStore.eav ∧
        ∀ kv ∈ [("person:name", PatV.one "joe")],
          ∃ v, v ∈ getVals joeStore.eav "e1" kv.1 ∧ v ∈ accVals kv.2) :=
  C6_match_pattern_semantics joeStore [("person:name", PatV.one "joe")] "e1" (by decide)

/-! ### Pure views of the schema resolver

The effectful resolver functions only materialize index keys; their returned
values are pure functions of the index contents.  These views, and the lemmas
relating them to the effectful versions, drive the idempotence and
forward/reverse-invariant proofs. -/

/-- The `getD []` view of an outer row (what `matO`'s second component is). -/
def rowD (idx : Idx) (k : String) : Row := (lookupA idx k).getD []

/-- Pure value of `_attr_cardinality`. -/
def attrCardinalityB (s : Store) (attr : String) : Option String :=
  if (rowD s.eav attr).isEmpty then none
  else match lookupA (rowD s.eav attr) "db:cardinality" with
    | some vs => vs.head?
    | none => some s.defaultCardinality

/-- Pure value of `_attr_type`. -/
def attrTypeB (s : Store) (attr : String) : Option String :=
  if (rowD s.eav attr).isEmpty then none
  else match lookupA (rowD s.eav attr) "db:valueType" with
    | some vs => vs.head?
    | none => none

/-- The pure underscore-stripping chain of `_ref_attr`. -/
def stripNameF : Nat → String → Except PyErr String
  | 0, _ => .error .fuelOut
  | n + 1, attr => do
    match ← reverseLookup attr with
    | some stripped => stripNameF n stripped
    | none => .ok attr

theorem schemaAttr_snd (s : Store) (attr : String) :
    (schemaAttr s attr).2 = rowD s.eav attr := matO_snd _ _

/-- `matO`'s second component, phrased with `rowD`. -/
theorem matO_snd_rowD (idx : Idx) (k : String) : (matO idx k).2 = rowD idx k :=
  matO_snd idx k

theorem attrCardinality_snd (s : Store) (attr : String) :
    (attrCardinality s attr).2 = attrCardinalityB s attr := by
  unfold attrCardinality attrCardinalityB schemaAttr
  rw [matO_snd_rowD]
  by_cases h : (rowD s.eav attr).isEmpty
  · rw [if_pos h, if_pos h]
  · rw [if_neg h, if_neg h]
    cases hl : lookupA (rowD s.eav attr) "db:cardinality" <;> rfl

theorem attrCardinality_fst (s : Store) (attr : String) :
    (attrCardinality s attr).1 = { s with eav := (matO s.eav attr).1 } := by
  unfold attrCardinality schemaAttr
  by_cases h : ((matO s.eav attr).2).isEmpty
  · simp [h]
  · cases hl : lookupA ((matO s.eav attr).2) "db:cardinality" <;> simp [h, hl]

theorem attrType_snd (s : Store) (attr : String) :
    (attrType s attr).2 = attrTypeB s attr := by
  unfold attrType attrTypeB schemaAttr
  rw [matO_snd_rowD]
  by_cases h : (rowD s.eav attr).isEmpty
  · rw [if_pos h, if_pos h]
  · rw [if_neg h, if_neg h]
    cases hl : lookupA (rowD s.eav attr) "db:valueType" <;> rfl

theorem attrType_fst (s : Store) (attr : String) :
    (attrType s attr).1 = { s with eav := (matO s.eav attr).1 } := by
  unfold attrType schemaAttr
  by_cases h : ((matO s.eav attr).2).isEmpty
  · simp [h]
  · cases hl : lookupA ((matO s.eav attr).2) "db:valueType" <;> simp [h, hl]

/-- `cardOne` fully characterized: branch on the (pure) reverse-lookup parse,
then either no store effect (reverse tokens, `db:cardinality`) or a single
outer-key materialization plus the pure cardinality comparison. -/
theorem cardOne_eq (s : Store) (a : String) :
    cardOne s a =
      match reverseLookup a with
      | .error err => .error err
      | .ok (some _) => .ok (s, false)
      | .ok none =>
          if a = "db:cardinality" then .ok (s, true)
          else .ok ({ s with eav := (matO s.eav a).1 },
                    attrCardinalityB s a = some "db.cardinality:one") := by
  unfold cardOne
  cases hrl : reverseLookup a with
  | error err => simp [bind, Except.bind, hrl]
  | ok o =>
      cases o with
      | some r => simp [bind, Except.bind, hrl]
      | none =>
          by_cases hdb : a = "db:cardinality"
          · simp [bind, Except.bind, hrl, hdb]
          · simp [bind, Except.bind, hrl, hdb, attrCardinality_fst, attrCardinality_snd]

/-- `refAttrF` fully characterized by the pure strip chain and `attrTypeB`. -/
theorem refAttrF_spec (n : Nat) (s : Store) (attr : String) (s4 : Store) (b : Bool)
    (h : refAttrF n s attr = .ok (s4, b)) :
    ∃ nm, stripNameF n attr = .ok nm
      ∧ s4 = { s with eav := (matO s.eav nm).1 }
      ∧ (b = true ↔ attrTypeB s nm = some "db.type:ref") := by
  induction n generalizing attr with
  | zero => simp [refAttrF] at h
  | succ n ih =>
      unfold refAttrF at h
      cases hrl : reverseLookup attr with
      | error err => rw [hrl] at h; simp [bind, Except.bind] at h
      | ok o =>
          rw [hrl] at h
          cases o with
          | some stripped =>
              simp only [bind, Except.bind] at h
              obtain ⟨nm, h1, h2, h3⟩ := ih stripped h
              refine ⟨nm, ?_, h2, h3⟩
              unfold stripNameF
              simp [bind, Except.bind, hrl, h1]
          | none =>
              simp only [bind, Except.bind, Except.ok.injEq, Prod.mk.injEq] at h
              refine ⟨attr, ?_, ?_, ?_⟩
              · unfold stripNameF
                simp [bind, Except.bind, hrl]
              · rw [← h.1, attrType_fst]
              · rw [← h.2, attrType_snd]
                simp

theorem refAttr_spec (s : Store) (attr : String) (s4 : Store) (b : Bool)
    (h : refAttr s attr = .ok (s4, b)) :
    ∃ nm, stripNameF (attr.length + 1) attr = .ok nm
      ∧ s4 = { s with eav := (matO s.eav nm).1 }
      ∧ (b = true ↔ attrTypeB s nm = some "db.type:ref") :=
  refAttrF_spec _ s attr s4 b h

/-! Row-level `getD` views through the index operations. -/

theorem rowD_matO (idx : Idx) (k y : String) : rowD (matO idx k).1 y = rowD idx y := by
  unfold rowD
  rw [lookupA_matO]
  by_cases h : k = y
  · subst h; simp
  · simp [h]

theorem rowD_mat2_ne (idx : Idx) (e a y : String) (h : ¬ e = y) :
    rowD (mat2 idx e a).1 y = rowD idx y := by
  unfold rowD
  rw [lookupA_mat2]
  simp [h]

theorem rowD_mat2_self (idx : Idx) (e a : String) :
    rowD (mat2 idx e a).1 e = (matI (rowD idx e) a).1 := by
  unfold rowD
  rw [lookupA_mat2]
  simp

theorem rowD_addT_ne (idx : Idx) (e a v y : String) (h : ¬ e = y) :
    rowD (addT idx e a v) y = rowD idx y := by
  unfold rowD
  rw [lookupA_addT]
  simp [h]

theorem rowD_addT_self (idx : Idx) (e a v : String) :
    rowD (addT idx e a v) e =
      setA (matI (rowD idx e) a).1 a (addVal (getVals idx e a) v) := by
  unfold rowD
  rw [lookupA_addT]
  simp

theorem attrCardinalityB_congr (s1 s2 : Store) (a : String)
    (hrow : rowD s1.eav a = rowD s2.eav a)
    (hdc : s1.defaultCardinality = s2.defaultCardinality) :
    attrCardinalityB s1 a = attrCardinalityB s2 a := by
  unfold attrCardinalityB
  rw [hrow, hdc]

theorem attrTypeB_congr (s1 s2 : Store) (a : String)
    (hrow : rowD s1.eav a = rowD s2.eav a) :
    attrTypeB s1 a = attrTypeB s2 a := by
  unfold attrTypeB
  rw [hrow]

/-! Presence: materializations and adds are no-ops on present keys/values. -/

theorem matI_present (row : Row) (a : String) (vs : Vals)
    (h : lookupA row a = some vs) : matI row a = (row, vs) := by
  simp [matI, h]

theorem mat2_present (idx : Idx) (e a : String) (row : Row) (vs : Vals)
    (h1 : lookupA idx e = some row) (h2 : lookupA row a = some vs) :
    mat2 idx e a = (idx, vs) := by
  unfold mat2
  rw [matO_present idx e row h1]
  simp only
  rw [matI_present row a vs h2]
  simp only
  rw [setA_lookup_eq idx e row h1]

theorem addT_present (idx : Idx) (e a v : String) (row : Row) (vs : Vals)
    (h1 : lookupA idx e = some row) (h2 : lookupA row a = some vs) (h3 : v ∈ vs) :
    addT idx e a v = idx := by
  unfold addT
  rw [matO_present idx e row h1]
  simp only
  rw [matI_present row a vs h2]
  simp only
  rw [show addVal vs v = vs by unfold addVal; rw [if_pos h3]]
  rw [setA_lookup_eq row a vs h2, setA_lookup_eq idx e row h1]

theorem getVals_ne_nil (idx : Idx) (e a : String) (h : getVals idx e a ≠ []) :
    ∃ row, lookupA idx e = some row ∧ lookupA row a = some (getVals idx e a) := by
  rw [getVals_def] at h ⊢
  cases hl : lookupA idx e with
  | none => rw [hl] at h; simp [lookupA] at h
  | some row =>
      simp only [Option.getD_some] at h ⊢
      cases hl2 : lookupA row a with
      | none =>
          rw [hl] at h
          simp only [Option.getD_some] at h
          simp [hl2] at h
      | some vs => exact ⟨row, rfl, by simp [hl2]⟩

theorem addVal_any_ne (vs : Vals) (v : String) :
    (addVal vs v).any (· ≠ v) = vs.any (· ≠ v) := by
  unfold addVal
  by_cases h : v ∈ vs
  · simp [h]
  · simp [h, List.any_append]

/-- After `addT`, the target keys are present and hold the added value set. -/
theorem addT_lookup2 (idx : Idx) (e a v : String) :
    ∃ row, lookupA (addT idx e a v) e = some row
      ∧ lookupA row a = some (addVal (getVals idx e a) v) := by
  rw [lookupA_addT]
  simp only [if_pos rfl]
  refine ⟨_, rfl, ?_⟩
  rw [lookupA_setA]
  simp

theorem lookupA_matO_pres {idx : Idx} {y : String} {rr : Row} (k : String)
    (h : lookupA idx y = some rr) : lookupA (matO idx k).1 y = some rr := by
  rw [lookupA_matO]
  by_cases hk : k = y
  · subst hk; rw [h]; simp
  · rw [if_neg hk, h]

theorem isSome_lookupA_matO {idx : Idx} {y : String} (k : String)
    (h : (lookupA idx y).isSome) : (lookupA (matO idx k).1 y).isSome := by
  rw [lookupA_matO]
  by_cases hk : k = y <;> simp [hk, h]

theorem isSome_lookupA_mat2 {idx : Idx} {y : String} (e a : String)
    (h : (lookupA idx y).isSome) : (lookupA (mat2 idx e a).1 y).isSome := by
  rw [lookupA_mat2]
  by_cases hk : e = y <;> simp [hk, h]

theorem isSome_lookupA_addT {idx : Idx} {y : String} (e a v : String)
    (h : (lookupA idx y).isSome) : (lookupA (addT idx e a v) y).isSome := by
  rw [lookupA_addT]
  by_cases hk : e = y <;> simp [hk, h]

theorem matI_fst_idem (row : Row) (a : String) :
    matI ((matI row a).1) a = ((matI row a).1, (lookupA row a).getD []) := by
  apply matI_present
  rw [lookupA_matI]
  simp

theorem setA_ne_nil {α : Type} (l : List (String × α)) (k : String) (v : α) :
    (setA l k v).isEmpty = false := by
  cases l with
  | nil => rfl
  | cons hd tl =>
      obtain ⟨k0, v0⟩ := hd
      unfold setA
      by_cases h : k0 = k <;> simp [h]

theorem lookupA_some_not_nil {α : Type} {l : List (String × α)} {k : String} {r : α}
    (h : lookupA l k = some r) : l.isEmpty = false := by
  cases l with
  | nil => simp [lookupA] at h
  | cons hd tl => rfl

/-- Re-running `refAttrF` under the same (pure) strip chain on any store:
materialize the stripped name's row and read its value type. -/
theorem refAttrF_run (n : Nat) (attr nm : String) (h : stripNameF n attr = .ok nm)
    (w : Store) :
    refAttrF n w attr = .ok ({ w with eav := (matO w.eav nm).1 },
      decide (attrTypeB w nm = some "db.type:ref")) := by
  induction n generalizing attr with
  | zero => simp [stripNameF] at h
  | succ n ih =>
      unfold stripNameF at h
      unfold refAttrF
      cases hrl : reverseLookup attr with
      | error err => rw [hrl] at h; simp [bind, Except.bind] at h
      | ok o =>
          rw [hrl] at h
          simp only [bind, Except.bind] at h ⊢
          cases o with
          | some stripped => exact ih stripped h
          | none =>
              cases h
              rw [attrType_fst, attrType_snd]

/-- The common tail of a successful `_assert_triple` run: everything the
idempotence and invariant arguments need about the resulting store. -/
theorem assertTail (s1 s4 s' : Store) (e a v : String) (r : Bool)
    (hra : refAttr { s1 with eav := addT (mat2 s1.eav e a).1 e a v } a = .ok (s4, r))
    (hs' : s' = if r = true then { s4 with vae := addT s4.vae v a e } else s4) :
    getVals s'.eav e a = addVal (getVals s1.eav e a) v
    ∧ ({ s' with eav := addT (mat2 s'.eav e a).1 e a v } = s')
    ∧ refAttr s' a = .ok (s', r)
    ∧ ((if r = true then Except.ok { s' with vae := addT s'.vae v a e }
        else Except.ok s' : Except PyErr Store) = Except.ok s')
    ∧ (∀ y, ¬ e = y → rowD s'.eav y = rowD s1.eav y)
    ∧ rowD s'.eav e = setA (matI (rowD s1.eav e) a).1 a (addVal (getVals s1.eav e a) v)
    ∧ (∀ y, (lookupA s1.eav y).isSome → (lookupA s'.eav y).isSome)
    ∧ s'.defaultCardinality = s1.defaultCardinality := by
  obtain ⟨nm, hnm, hs4, hriff⟩ := refAttr_spec _ _ _ _ hra
  have hs4eav : s4.eav = (matO (addT (mat2 s1.eav e a).1 e a v) nm).1 := by
    rw [hs4]
  have hEav : s'.eav = (matO (addT (mat2 s1.eav e a).1 e a v) nm).1 := by
    rw [hs']
    cases r <;> simp [hs4eav]
  have hs4vae : s4.vae = s1.vae := by rw [hs4]
  have hs4dc : s4.defaultCardinality = s1.defaultCardinality := by rw [hs4]
  -- value-set and row views of the new EAV index
  have hGet : getVals s'.eav e a = addVal (getVals s1.eav e a) v := by
    rw [hEav, getVals_matO, getVals_addT_self, getVals_mat2]
  have hRowNe : ∀ y, ¬ e = y → rowD s'.eav y = rowD s1.eav y := by
    intro y hy
    rw [hEav, rowD_matO, rowD_addT_ne _ _ _ _ _ hy, rowD_mat2_ne _ _ _ _ hy]
  have hRowE : rowD s'.eav e
      = setA (matI (rowD s1.eav e) a).1 a (addVal (getVals s1.eav e a) v) := by
    rw [hEav, rowD_matO, rowD_addT_self, rowD_mat2_self, getVals_mat2, matI_fst_idem]
  have hSome : ∀ y, (lookupA s1.eav y).isSome → (lookupA s'.eav y).isSome := by
    intro y hy
    rw [hEav]
    exact isSome_lookupA_matO nm (isSome_lookupA_addT e a v (isSome_lookupA_mat2 e a hy))
  -- presence of the asserted triple in the new index
  obtain ⟨row', hre, hra2⟩ := addT_lookup2 (mat2 s1.eav e a).1 e a v
  rw [getVals_mat2] at hra2
  have hre' : lookupA s'.eav e = some row' := by
    rw [hEav]
    exact lookupA_matO_pres nm hre
  have hmat2' : mat2 s'.eav e a = (s'.eav, addVal (getVals s1.eav e a) v) :=
    mat2_present s'.eav e a row' _ hre' hra2
  have haddT' : addT s'.eav e a v = s'.eav :=
    addT_present s'.eav e a v row' _ hre' hra2 (by rw [mem_addVal]; exact Or.inr rfl)
  have hB : ({ s' with eav := addT (mat2 s'.eav e a).1 e a v } = s') := by
    rw [hmat2']
    show { s' with eav := addT s'.eav e a v } = s'
    rw [haddT']
  -- re-running the reference check on s'
  have hnmSome : (lookupA s'.eav nm).isSome := by
    rw [hEav, lookupA_matO]
    simp
  obtain ⟨rr, hrr⟩ := Option.isSome_iff_exists.mp hnmSome
  have hRowNm : rowD s'.eav nm
      = rowD { s1 with eav := addT (mat2 s1.eav e a).1 e a v }.eav nm := by
    rw [hEav]
    exact rowD_matO _ nm nm
  have hTypeEq : attrTypeB s' nm
      = attrTypeB { s1 with eav := addT (mat2 s1.eav e a).1 e a v } nm :=
    attrTypeB_congr _ _ nm hRowNm
  have hrdec : decide (attrTypeB s' nm = some "db.type:ref") = r := by
    rw [hTypeEq]
    by_cases hp : attrTypeB { s1 with eav := addT (mat2 s1.eav e a).1 e a v } nm
        = some "db.type:ref"
    · rw [hriff.mpr hp]
      simp [hp]
    · have : ¬ r = true := fun hrt => hp (hriff.mp hrt)
      simp [hp, Bool.not_eq_true] at this ⊢
      exact this
  have hC : refAttr s' a = .ok (s', r) := by
    unfold refAttr
    rw [refAttrF_run (a.length + 1) a nm hnm s']
    rw [matO_present s'.eav nm rr hrr, hrdec]
  -- the reverse-index update is a no-op the second time
  have hD : ((if r = true then Except.ok { s' with vae := addT s'.vae v a e }
      else Except.ok s' : Except PyErr Store) = Except.ok s') := by
    cases hr : r with
    | false => rw [if_neg (by simp)]
    | true =>
        rw [if_pos rfl]
        have hVae : s'.vae = addT s1.vae v a e := by
          rw [hs', hr]
          simp [hs4vae]
        obtain ⟨row2, h2v, h2a⟩ := addT_lookup2 s1.vae v a e
        have h2v' : lookupA s'.vae v = some row2 := by rw [hVae]; exact h2v
        have haddv : addT s'.vae v a e = s'.vae := by
          rw [hVae]
          exact addT_present _ v a e row2 _ h2v h2a (by rw [mem_addVal]; exact Or.inr rfl)
        rw [haddv]
  have hdc : s'.defaultCardinality = s1.defaultCardinality := by
    rw [hs']
    cases r <;> simp [hs4dc]
  exact ⟨hGet, hB, hC, hD, hRowNe, hRowE, hSome, hdc⟩

theorem any_ne_nil {l : List String} {p : String → Bool} (h : l.any p = true) :
    l ≠ [] := by
  rcases List.any_eq_true.mp h with ⟨x, hx, -⟩
  exact List.ne_nil_of_mem hx

/-- **C5** (confirmed).  If asserting `(e,a,v)` succeeds and produces `s'`,
asserting the same triple again on `s'` succeeds and returns `s'` unchanged —
both indices (and the whole store state) are identical to the single-assert
result. -/
theorem C5_assert_triple_idempotent (s s' : Store) (e a v : String)
    (h : assertTriple s e a v = .ok s') :
    assertTriple s' e a v = .ok s' := by
  unfold assertTriple at h ⊢
  rw [cardOne_eq] at h
  rw [cardOne_eq]
  cases hrl : reverseLookup a with
  | error err => rw [hrl] at h; simp [bind, Except.bind] at h
  | ok o =>
      rw [hrl] at h
      cases o with
      | some r0 =>
          -- reverse tokens are never cardinality-one: no store effect, no guard
          simp only [bind, Except.bind] at h ⊢
          rw [if_neg (by simp)] at h
          rw [if_neg (by simp)]
          cases hra : refAttr { s with eav := addT (mat2 s.eav e a).1 e a v } a with
          | error err => rw [hra] at h; simp at h
          | ok p =>
              obtain ⟨s4, r⟩ := p
              rw [hra] at h
              simp only at h
              have hs' : s' = if r = true then { s4 with vae := addT s4.vae v a e }
                  else s4 := by
                by_cases hr : r = true
                · rw [if_pos hr] at h ⊢
                  exact (Except.ok.inj h).symm
                · rw [if_neg hr] at h ⊢
                  exact (Except.ok.inj h).symm
              obtain ⟨hA, hB, hC, hD, -, -, -, -⟩ := assertTail s s4 s' e a v r hra hs'
              rw [hB, hC]
              simp only [bind, Except.bind]
              exact hD
      | none =>
          by_cases hdb : a = "db:cardinality"
          · -- the special-cased meta-attribute: cardinality-one, no store effect
            rw [if_pos hdb] at h ⊢
            simp only [bind, Except.bind] at h ⊢
            by_cases hany : ((mat2 s.eav e a).2).any (· ≠ v) = true
            · rw [if_pos ⟨trivial, hany⟩] at h
              cases h
            · rw [if_neg (fun hc => hany hc.2)] at h
              cases hra : refAttr { s with eav := addT (mat2 s.eav e a).1 e a v } a with
              | error err => rw [hra] at h; simp at h
              | ok p =>
                  obtain ⟨s4, r⟩ := p
                  rw [hra] at h
                  simp only at h
                  have hs' : s' = if r = true then { s4 with vae := addT s4.vae v a e }
                      else s4 := by
                    by_cases hr : r = true
                    · rw [if_pos hr] at h ⊢
                      exact (Except.ok.inj h).symm
                    · rw [if_neg hr] at h ⊢
                      exact (Except.ok.inj h).symm
                  obtain ⟨hA, hB, hC, hD, -, -, -, -⟩ := assertTail s s4 s' e a v r hra hs'
                  rw [if_neg (by
                    rintro ⟨-, h2⟩
                    rw [mat2_snd, hA, addVal_any_ne] at h2
                    rw [mat2_snd] at hany
                    exact hany h2)]
                  rw [hB, hC]
                  simp only [bind, Except.bind]
                  exact hD
          · -- the general path: schema row materialization plus pure lookup
            rw [if_neg hdb] at h ⊢
            simp only [bind, Except.bind] at h ⊢
            by_cases hcond : decide (attrCardinalityB s a = some "db.cardinality:one") = true
                ∧ ((mat2 ({ s with eav := (matO s.eav a).1 } : Store).eav e a).2).any
                    (· ≠ v) = true
            · rw [if_pos hcond] at h
              cases h
            · rw [if_neg hcond] at h
              cases hra : refAttr { { s with eav := (matO s.eav a).1 } with
                  eav := addT (mat2 ({ s with eav := (matO s.eav a).1 } : Store).eav e a).1
                    e a v } a with
              | error err => rw [hra] at h; simp at h
              | ok p =>
                  obtain ⟨s4, r⟩ := p
                  rw [hra] at h
                  simp only at h
                  have hs' : s' = if r = true then { s4 with vae := addT s4.vae v a e }
                      else s4 := by
                    by_cases hr : r = true
                    · rw [if_pos hr] at h ⊢
                      exact (Except.ok.inj h).symm
                    · rw [if_neg hr] at h ⊢
                      exact (Except.ok.inj h).symm
                  obtain ⟨hA, hB, hC, hD, hRowNe, hRowE, hSome, hdc⟩ :=
                    assertTail { s with eav := (matO s.eav a).1 } s4 s' e a v r hra hs'
                  -- `a` is already a key of s'.eav, so the second schema read
                  -- does not change the store
                  have haSome : (lookupA s'.eav a).isSome := by
                    apply hSome
                    show (lookupA (matO s.eav a).1 a).isSome
                    rw [lookupA_matO]
                    simp
                  obtain ⟨rr, hrr⟩ := Option.isSome_iff_exists.mp haSome
                  have hmatA : (matO s'.eav a).1 = s'.eav := by
                    rw [matO_present s'.eav a rr hrr]
                  rw [hmatA]
                  -- the guard cannot fire the second time
                  have hgetS1 : getVals ({ s with eav := (matO s.eav a).1 } : Store).eav e a
                      = getVals s.eav e a := getVals_matO s.eav a e a
                  rw [if_neg (by
                    rintro ⟨hc1', h2⟩
                    rw [mat2_snd, hA, hgetS1, addVal_any_ne] at h2
                    -- so the stale-value scan fired: the first run's guard says
                    -- the attribute was not cardinality-one then
                    have hc1 : ¬ attrCardinalityB s a = some "db.cardinality:one" := by
                      intro hp
                      exact hcond ⟨by simp [hp], by
                        rw [mat2_snd, hgetS1]
                        exact h2⟩
                    -- and its cardinality reading is unchanged by the assert
                    have hcardEq : attrCardinalityB s' a = attrCardinalityB s a := by
                      have hdc' : s'.defaultCardinality = s.defaultCardinality := hdc
                      by_cases hea : e = a
                      · subst hea
                        have hnn : getVals s.eav e e ≠ [] := by
                          intro hnil
                          rw [hnil] at h2
                          cases h2
                        obtain ⟨row0, h0e, h0a⟩ := getVals_ne_nil s.eav e e hnn
                        have hrow0 : rowD s.eav e = row0 := by
                          unfold rowD
                          rw [h0e]
                          rfl
                        have hrowS1 : rowD ({ s with eav := (matO s.eav e).1 } : Store).eav e
                            = row0 := by
                          show rowD (matO s.eav e).1 e = row0
                          rw [rowD_matO, hrow0]
                        have hrowS' : rowD s'.eav e
                            = setA row0 e (addVal (getVals s.eav e e) v) := by
                          rw [hRowE, hrowS1, matI_present row0 e _ h0a, hgetS1]
                        unfold attrCardinalityB
                        rw [hrowS', hdc', hrow0]
                        rw [setA_ne_nil, lookupA_some_not_nil h0a]
                        rw [lookupA_setA]
                        rw [if_neg (fun hh : e = "db:cardinality" => hdb hh)]
                      · have hrowS' : rowD s'.eav a = rowD s.eav a := by
                          rw [hRowNe a hea]
                          show rowD (matO s.eav a).1 a = rowD s.eav a
                          exact rowD_matO s.eav a a
                        unfold attrCardinalityB
                        rw [hrowS', hdc']
                    rw [hcardEq] at hc1'
                    exact hc1 (of_decide_eq_true hc1'))]
                  rw [hB, hC]
                  simp only [bind, Except.bind]
                  exact hD

/-- The store produced by one successful assert on `mkStore`. -/
def idemStore : Store :=
  (assertTriple mkStore "e1" "x:y" "v1").toOption.getD blankStore

/-- Witness for C5: one concrete assert on the freshly constructed store,
re-asserted. -/
theorem C5_witness : assertTriple idemStore "e1" "x:y" "v1" = .ok idemStore :=
  C5_assert_triple_idempotent mkStore idemStore "e1" "x:y" "v1" (by rfl)

/-! ### Wellformedness: value sets are duplicate-free (they model Python sets) -/

/-- Every value set stored in the index is duplicate-free. -/
def wfIdx (idx : Idx) : Prop :=
  ∀ k row, lookupA idx k = some row → ∀ y vs, lookupA row y = some vs → vs.Nodup

/-- Both indices are wellformed. -/
def wfStore (s : Store) : Prop := wfIdx s.eav ∧ wfIdx s.vae

theorem wf_rowD {idx : Idx} (h : wfIdx idx) (k : String) :
    ∀ y vs, lookupA (rowD idx k) y = some vs → vs.Nodup := by
  intro y vs hvs
  unfold rowD at hvs
  cases hl : lookupA idx k with
  | none => rw [hl] at hvs; simp [lookupA] at hvs
  | some row =>
      rw [hl] at hvs
      exact h k row hl y vs hvs

theorem wf_row_matI {row : Row} (h : ∀ y vs, lookupA row y = some vs → vs.Nodup)
    (a : String) : ∀ y vs, lookupA (matI row a).1 y = some vs → vs.Nodup := by
  intro y vs hvs
  rw [lookupA_matI] at hvs
  by_cases hay : a = y
  · rw [if_pos hay] at hvs
    cases hvs
    cases hl : lookupA row a with
    | none => simp
    | some vs0 => simpa using h a vs0 hl
  · rw [if_neg hay] at hvs
    exact h y vs hvs

theorem wf_row_setA {row : Row} (h : ∀ y vs, lookupA row y = some vs → vs.Nodup)
    (a : String) (w : Vals) (hw : w.Nodup) :
    ∀ y vs, lookupA (setA row a w) y = some vs → vs.Nodup := by
  intro y vs hvs
  rw [lookupA_setA] at hvs
  by_cases hay : a = y
  · rw [if_pos hay] at hvs
    cases hvs
    exact hw
  · rw [if_neg hay] at hvs
    exact h y vs hvs

theorem wf_matO {idx : Idx} (h : wfIdx idx) (k : String) : wfIdx (matO idx k).1 := by
  intro k' row hrow
  rw [lookupA_matO] at hrow
  by_cases hk : k = k'
  · rw [if_pos hk] at hrow
    cases hrow
    exact wf_rowD h k
  · rw [if_neg hk] at hrow
    exact h k' row hrow

theorem wf_mat2 {idx : Idx} (h : wfIdx idx) (e a : String) : wfIdx (mat2 idx e a).1 := by
  intro k' row hrow
  rw [lookupA_mat2] at hrow
  by_cases hk : e = k'
  · rw [if_pos hk] at hrow
    cases hrow
    exact wf_row_matI (hk ▸ wf_rowD h e) a
  · rw [if_neg hk] at hrow
    exact h k' row hrow

theorem wf_getVals {idx : Idx} (h : wfIdx idx) (e a : String) :
    (getVals idx e a).Nodup := by
  rw [getVals_def]
  cases hl : lookupA ((lookupA idx e).getD []) a with
  | none => simp
  | some vs =>
      simp only [Option.getD_some]
      exact wf_rowD h e a vs hl

theorem addVal_nodup {vs : Vals} (h : vs.Nodup) (v : String) : (addVal vs v).Nodup := by
  unfold addVal
  by_cases hv : v ∈ vs
  · rw [if_pos hv]; exact h
  · rw [if_neg hv]
    rw [List.nodup_append]
    exact ⟨h, List.nodup_singleton v, by
      intro x hx hx'
      rw [List.mem_singleton] at hx'
      subst hx'
      exact hv hx⟩

theorem wf_addT {idx : Idx} (h : wfIdx idx) (e a v : String) : wfIdx (addT idx e a v) := by
  intro k' row hrow
  rw [lookupA_addT] at hrow
  by_cases hk : e = k'
  · rw [if_pos hk] at hrow
    cases hrow
    subst hk
    exact wf_row_setA (wf_row_matI (wf_rowD h e) a) a _
      (addVal_nodup (wf_getVals h e a) v)
  · rw [if_neg hk] at hrow
    exact h k' row hrow

/-! ### C1: forward/reverse consistency -/

/-- The pure value of `_ref_attr(a)`: strip reverse markers, then compare the
declared value type (false also when the strip chain would raise). -/
def refPure (s : Store) (a : String) : Bool :=
  match stripNameF (a.length + 1) a with
  | .error _ => false
  | .ok nm => attrTypeB s nm = some "db.type:ref"

/-- A primitive triple-level mutation.  `assert_fact`, `assert_facts` and
`_retract_triples` reduce to sequences of these two calls. -/
inductive TOp where
  | ast (e a v : String)
  | ret (e a v : String)

def runOp (s : Store) : TOp → Except PyErr Store
  | .ast e a v => assertTriple s e a v
  | .ret e a v => retractTriple s e a v

def runOps (s : Store) : List TOp → Except PyErr Store
  | [] => .ok s
  | op :: rest => do runOps (← runOp s op) rest

/-- The claim's forward/reverse consistency at attribute `a`. -/
def InvFR (s : Store) (a : String) : Prop :=
  ∀ e v, memT s.eav e a v ↔ memT s.vae v a e

/-- `a` reads as reference-typed after every successful step of `ops`
(decidable along the concrete run). -/
def refStable (a : String) : Store → List TOp → Bool
  | _, [] => true
  | s, op :: rest =>
      match runOp s op with
      | .ok s' => refPure s' a && refStable a s' rest
      | .error _ => true

/-- Successful asserts decompose into: an optional schema-row materialization
(which changes no row contents), then the add and the reference mirror. -/
theorem assertOk_decomp (s s' : Store) (e a v : String)
    (h : assertTriple s e a v = .ok s') :
    ∃ (s1 s4 : Store) (r : Bool),
      ((∀ y, rowD s1.eav y = rowD s.eav y)
       ∧ s1.vae = s.vae
       ∧ s1.defaultCardinality = s.defaultCardinality
       ∧ (wfIdx s.eav → wfIdx s1.eav)
       ∧ s1.lazyRefs = s.lazyRefs
       ∧ s1.identAttr = s.identAttr
       ∧ s1.nextId = s.nextId)
      ∧ refAttr { s1 with eav := addT (mat2 s1.eav e a).1 e a v } a = .ok (s4, r)
      ∧ s' = (if r = true then { s4 with vae := addT s4.vae v a e } else s4) := by
  unfold assertTriple at h
  rw [cardOne_eq] at h
  cases hrl : reverseLookup a with
  | error err => rw [hrl] at h; simp [bind, Except.bind] at h
  | ok o =>
      rw [hrl] at h
      cases o with
      | some r0 =>
          simp only [bind, Except.bind] at h
          rw [if_neg (by simp)] at h
          cases hra : refAttr { s with eav := addT (mat2 s.eav e a).1 e a v } a with
          | error err => rw [hra] at h; simp at h
          | ok p =>
              obtain ⟨s4, r⟩ := p
              rw [hra] at h
              simp only at h
              refine ⟨s, s4, r, ⟨fun y => rfl, rfl, rfl, id, rfl, rfl, rfl⟩, hra, ?_⟩
              by_cases hr : r = true
              · rw [if_pos hr] at h ⊢
                exact (Except.ok.inj h).symm
              · rw [if_neg hr] at h ⊢
                exact (Except.ok.inj h).symm
      | none =>
          by_cases hdb : a = "db:cardinality"
          · rw [if_pos hdb] at h
            simp only [bind, Except.bind] at h
            by_cases hany : ((mat2 s.eav e a).2).any (· ≠ v) = true
            · rw [if_pos ⟨trivial, hany⟩] at h
              cases h
            · rw [if_neg (fun hc => hany hc.2)] at h
              cases hra : refAttr { s with eav := addT (mat2 s.eav e a).1 e a v } a with
              | error err => rw [hra] at h; simp at h
              | ok p =>
                  obtain ⟨s4, r⟩ := p
                  rw [hra] at h
                  simp only at h
                  refine ⟨s, s4, r, ⟨fun y => rfl, rfl, rfl, id, rfl, rfl, rfl⟩, hra, ?_⟩
                  by_cases hr : r = true
                  · rw [if_pos hr] at h ⊢
                    exact (Except.ok.inj h).symm
                  · rw [if_neg hr] at h ⊢
                    exact (Except.ok.inj h).symm
          · rw [if_neg hdb] at h
            simp only [bind, Except.bind] at h
            by_cases hcond : decide (attrCardinalityB s a = some "db.cardinality:one") = true
                ∧ (List.any (mat2 ({ s with eav := (matO s.eav a).1 } : Store).eav e a).2
                    fun x => decide (x ≠ v)) = true
            · rw [if_pos hcond] at h
              cases h
            · rw [if_neg hcond] at h
              cases hra : refAttr { { s with eav := (matO s.eav a).1 } with
                  eav := addT (mat2 ({ s with eav := (matO s.eav a).1 } : Store).eav e a).1
                    e a v } a with
              | error err => rw [hra] at h; simp at h
              | ok p =>
                  obtain ⟨s4, r⟩ := p
                  rw [hra] at h
                  simp only at h
                  refine ⟨{ s with eav := (matO s.eav a).1 }, s4, r,
                    ⟨fun y => rowD_matO s.eav a y, rfl, rfl, fun hw => wf_matO hw a,
                     rfl, rfl, rfl⟩,
                    hra, ?_⟩
                  by_cases hr : r = true
                  · rw [if_pos hr] at h ⊢
                    exact (Except.ok.inj h).symm
                  · rw [if_neg hr] at h ⊢
                    exact (Except.ok.inj h).symm

theorem getVals_rowD (idx : Idx) (x y : String) :
    getVals idx x y = (lookupA (rowD idx x) y).getD [] := getVals_def idx x y

/-- Membership effects of the tail of a successful assert. -/
theorem assertTail2 (s1 s4 s' : Store) (e a v : String) (r : Bool)
    (hra : refAttr { s1 with eav := addT (mat2 s1.eav e a).1 e a v } a = .ok (s4, r))
    (hs' : s' = if r = true then { s4 with vae := addT s4.vae v a e } else s4) :
    (∀ x y z, memT s'.eav x y z ↔ (memT s1.eav x y z ∨ (x = e ∧ y = a ∧ z = v)))
    ∧ refPure s' a = r
    ∧ (r = true →
        ∀ x y z, memT s'.vae x y z ↔ (memT s1.vae x y z ∨ (x = v ∧ y = a ∧ z = e)))
    ∧ (r = false → s'.vae = s1.vae)
    ∧ (wfIdx s1.eav → wfIdx s'.eav)
    ∧ (wfIdx s1.vae → wfIdx s'.vae) := by
  obtain ⟨nm, hnm, hs4, hriff⟩ := refAttr_spec _ _ _ _ hra
  have hs4eav : s4.eav = (matO (addT (mat2 s1.eav e a).1 e a v) nm).1 := by rw [hs4]
  have hEav : s'.eav = (matO (addT (mat2 s1.eav e a).1 e a v) nm).1 := by
    rw [hs']
    cases r <;> simp [hs4eav]
  have hs4vae : s4.vae = s1.vae := by rw [hs4]
  have memE : ∀ x y z,
      memT s'.eav x y z ↔ (memT s1.eav x y z ∨ (x = e ∧ y = a ∧ z = v)) := by
    intro x y z
    have h1 : memT s'.eav x y z ↔ memT (addT (mat2 s1.eav e a).1 e a v) x y z := by
      unfold memT
      rw [hEav, getVals_matO]
    rw [h1, memT_addT, memT_mat2]
  have hTypeEq : attrTypeB s' nm
      = attrTypeB { s1 with eav := addT (mat2 s1.eav e a).1 e a v } nm := by
    apply attrTypeB_congr
    rw [hEav]
    exact rowD_matO _ nm nm
  have refP : refPure s' a = r := by
    unfold refPure
    rw [hnm]
    show decide (attrTypeB s' nm = some "db.type:ref") = r
    rw [hTypeEq]
    by_cases hp : attrTypeB { s1 with eav := addT (mat2 s1.eav e a).1 e a v } nm
        = some "db.type:ref"
    · rw [hriff.mpr hp]
      simp [hp]
    · have hnr : ¬ r = true := fun hrt => hp (hriff.mp hrt)
      simp [hp, Bool.not_eq_true] at hnr ⊢
      exact hnr
  have memVt : r = true →
      ∀ x y z, memT s'.vae x y z ↔ (memT s1.vae x y z ∨ (x = v ∧ y = a ∧ z = e)) := by
    intro hr x y z
    have hVae : s'.vae = addT s1.vae v a e := by
      rw [hs', hr]
      simp [hs4vae]
    have h1 : memT s'.vae x y z ↔ memT (addT s1.vae v a e) x y z := by rw [hVae]
    rw [h1]
    exact memT_addT s1.vae v a e x y z
  have memVf : r = false → s'.vae = s1.vae := by
    intro hr
    rw [hs', hr]
    simp [hs4vae]
  have wfE : wfIdx s1.eav → wfIdx s'.eav := by
    intro hw
    rw [hEav]
    exact wf_matO (wf_addT (wf_mat2 hw e a) e a v) nm
  have wfV : wfIdx s1.vae → wfIdx s'.vae := by
    intro hw
    cases hr : r with
    | true =>
        have hVae : s'.vae = addT s1.vae v a e := by
          rw [hs', hr]
          simp [hs4vae]
        rw [hVae]
        exact wf_addT hw v a e
    | false => rw [memVf hr]; exact hw
  exact ⟨memE, refP, memVt, memVf, wfE, wfV⟩

/-- Membership effects of `_assert_triple`: the asserted triple is added to
the forward index; the mirror entry is added to the reverse index exactly when
the attribute reads as reference-typed afterwards; wellformedness persists. -/
theorem assert_mem (s s' : Store) (e a v : String)
    (h : assertTriple s e a v = .ok s') :
    (∀ x y z, memT s'.eav x y z ↔ (memT s.eav x y z ∨ (x = e ∧ y = a ∧ z = v)))
    ∧ (refPure s' a = true →
        ∀ x y z, memT s'.vae x y z ↔ (memT s.vae x y z ∨ (x = v ∧ y = a ∧ z = e)))
    ∧ (refPure s' a = false → s'.vae = s.vae)
    ∧ (wfStore s → wfStore s') := by
  obtain ⟨s1, s4, r, ⟨hrow, hvae1, hdc1, hwf1, _, _, _⟩, hra, hs'⟩ :=
    assertOk_decomp s s' e a v h
  obtain ⟨memE, refP, memVt, memVf, wfE, wfV⟩ := assertTail2 s1 s4 s' e a v r hra hs'
  have hmem1 : ∀ x y z, memT s1.eav x y z ↔ memT s.eav x y z := by
    intro x y z
    unfold memT
    rw [getVals_rowD, getVals_rowD, hrow x]
  refine ⟨?_, ?_, ?_, ?_⟩
  · intro x y z
    rw [memE, hmem1]
  · intro hrp
    rw [refP] at hrp
    intro x y z
    rw [memVt hrp x y z]
    unfold memT
    rw [hvae1]
  · intro hrp
    rw [refP] at hrp
    rw [memVf hrp, hvae1]
  · rintro ⟨hwe, hwv⟩
    exact ⟨wfE (hwf1 hwe), wfV (hvae1 ▸ hwv)⟩

theorem getVals_set2 (idx : Idx) (e a : String) (w : Vals) (x y : String) :
    getVals (set2 idx e a w) x y =
      if e = x then (if a = y then w else getVals idx x y) else getVals idx x y := by
  unfold set2
  rw [getVals_def, lookupA_setA]
  by_cases hex : e = x
  · rw [if_pos hex, if_pos hex]
    simp only [Option.getD_some]
    rw [lookupA_setA, matO_snd_rowD]
    by_cases hay : a = y
    · rw [if_pos hay, if_pos hay]
      simp
    · rw [if_neg hay, if_neg hay, ← hex, ← getVals_rowD]
  · rw [if_neg hex, if_neg hex, lookupA_matO]
    by_cases hee : e = x
    · exact absurd hee hex
    · rw [if_neg hee, ← getVals_def]

/-- The shape of the reverse-index update in `_retract_triple`
(`setA row1 a w` written back over the materialized row of `v`). -/
theorem getVals_rrShape (idx : Idx) (v a : String) (w : Vals) (x y : String) :
    getVals (setA (matO idx v).1 v (setA (matI (rowD idx v) a).1 a w)) x y =
      if v = x then (if a = y then w else getVals idx x y) else getVals idx x y := by
  rw [getVals_def, lookupA_setA]
  by_cases hvx : v = x
  · rw [if_pos hvx, if_pos hvx]
    simp only [Option.getD_some]
    rw [lookupA_setA]
    by_cases hay : a = y
    · rw [if_pos hay, if_pos hay]
      simp
    · rw [if_neg hay, if_neg hay, lookupA_matI]
      rw [if_neg hay, ← hvx, ← getVals_rowD]
  · rw [if_neg hvx, if_neg hvx, lookupA_matO]
    by_cases hvv : v = x
    · exact absurd hvv hvx
    · rw [if_neg hvv, ← getVals_def]

theorem wf_set2 {idx : Idx} (h : wfIdx idx) (e a : String) {w : Vals}
    (hw : w.Nodup) : wfIdx (set2 idx e a w) := by
  intro k row hrow
  unfold set2 at hrow
  rw [lookupA_setA] at hrow
  by_cases hek : e = k
  · rw [if_pos hek] at hrow
    cases hrow
    rw [matO_snd_rowD]
    exact wf_row_setA (hek ▸ wf_rowD h e) a w hw
  · rw [if_neg hek, lookupA_matO] at hrow
    by_cases hee : e = k
    · exact absurd hee hek
    · rw [if_neg hee] at hrow
      exact h k row hrow

theorem wf_rrShape {idx : Idx} (h : wfIdx idx) (v a : String) {w : Vals}
    (hw : w.Nodup) :
    wfIdx (setA (matO idx v).1 v (setA (matI (rowD idx v) a).1 a w)) := by
  intro k row hrow
  rw [lookupA_setA] at hrow
  by_cases hvk : v = k
  · rw [if_pos hvk] at hrow
    cases hrow
    exact wf_row_setA (wf_row_matI (hvk ▸ wf_rowD h v) a) a w hw
  · rw [if_neg hvk, lookupA_matO] at hrow
    by_cases hvv : v = k
    · exact absurd hvv hvk
    · rw [if_neg hvv] at hrow
      exact h k row hrow

/-- The no-op reverse branch of `_retract_triple` only materializes keys; it
changes no value set. -/
theorem getVals_rrNoop (idx : Idx) (v a x y : String) :
    getVals (setA (matO idx v).1 v (matI (rowD idx v) a).1) x y = getVals idx x y := by
  rw [getVals_def, lookupA_setA]
  by_cases hvx : v = x
  · rw [if_pos hvx]
    simp only [Option.getD_some]
    rw [lookupA_matI]
    by_cases hay : a = y
    · rw [if_pos hay]
      simp only [Option.getD_some]
      rw [← hay, ← hvx, getVals_rowD]
    · rw [if_neg hay, ← hvx, ← getVals_rowD]
  · rw [if_neg hvx, lookupA_matO]
    by_cases hvv : v = x
    · exact absurd hvv hvx
    · rw [if_neg hvv, ← getVals_def]

theorem wf_rrNoop {idx : Idx} (h : wfIdx idx) (v a : String) :
    wfIdx (setA (matO idx v).1 v (matI (rowD idx v) a).1) := by
  intro k row hrow
  rw [lookupA_setA] at hrow
  by_cases hvk : v = k
  · rw [if_pos hvk] at hrow
    cases hrow
    exact wf_row_matI (hvk ▸ wf_rowD h v) a
  · rw [if_neg hvk, lookupA_matO] at hrow
    by_cases hvv : v = k
    · exact absurd hvv hvk
    · rw [if_neg hvv] at hrow
      exact h k row hrow

theorem lookupA_mem {α : Type} {l : List (String × α)} {k : String} {r : α}
    (h : lookupA l k = some r) : (k, r) ∈ l := by
  induction l with
  | nil => simp [lookupA] at h
  | cons hd tl ih =>
      obtain ⟨k0, v0⟩ := hd
      by_cases h0 : k0 = k
      · subst h0
        simp only [lookupA, if_pos rfl] at h
        cases h
        exact List.mem_cons_self _ _
      · simp only [lookupA, if_neg h0] at h
        exact List.mem_cons_of_mem _ (ih h)

/-- Membership effects of `_retract_triple` on a wellformed store: the named
triple (and, when mirrored, its reverse entry) is removed and nothing else. -/
theorem retract_mem (s s' : Store) (e a v : String) (hwf : wfStore s)
    (h : retractTriple s e a v = .ok s') :
    (∀ x y z, memT s'.eav x y z ↔ (memT s.eav x y z ∧ ¬(x = e ∧ y = a ∧ z = v)))
    ∧ (∀ x y z, memT s'.vae x y z ↔ (memT s.vae x y z ∧ ¬(x = v ∧ y = a ∧ z = e)))
    ∧ wfStore s' := by
  unfold retractTriple at h
  rw [mat2_snd] at h
  by_cases hv : v ∈ getVals s.eav e a
  case neg => rw [if_neg hv] at h; cases h
  rw [if_pos hv] at h
  unfold retractTriple.retractReverse at h
  dsimp only at h
  rw [matO_snd_rowD] at h
  -- the new forward index, shared by all reverse branches
  have hEavMem : ∀ x y z,
      memT (set2 (mat2 s.eav e a).1 e a ((getVals s.eav e a).erase v)) x y z
        ↔ (memT s.eav x y z ∧ ¬(x = e ∧ y = a ∧ z = v)) := by
    intro x y z
    unfold memT
    rw [getVals_set2]
    by_cases hex : e = x
    · rw [if_pos hex]
      by_cases hay : a = y
      · rw [if_pos hay]
        rw [List.Nodup.mem_erase_iff (wf_getVals hwf.1 e a)]
        subst hex
        subst hay
        constructor
        · rintro ⟨hzv, hz⟩
          exact ⟨hz, fun hc => hzv hc.2.2⟩
        · rintro ⟨hz, hnc⟩
          exact ⟨fun hzv => hnc ⟨rfl, rfl, hzv⟩, hz⟩
      · rw [if_neg hay, getVals_mat2]
        have : ¬ (x = e ∧ y = a ∧ z = v) := fun hc => hay hc.2.1.symm
        tauto
    · rw [if_neg hex, getVals_mat2]
      have : ¬ (x = e ∧ y = a ∧ z = v) := fun hc => hex hc.1.symm
      tauto
  have hwfE : wfIdx (set2 (mat2 s.eav e a).1 e a ((getVals s.eav e a).erase v)) :=
    wf_set2 (wf_mat2 hwf.1 e a) e a ((wf_getVals hwf.1 e a).erase v)
  -- reverse side, by branch
  by_cases hre : (rowD s.vae v).isEmpty
  · rw [if_pos hre] at h
    cases h
    refine ⟨hEavMem, ?_, hwfE, wf_matO hwf.2 v⟩
    intro x y z
    show memT (matO s.vae v).1 x y z ↔ _
    have hnm : ¬ memT s.vae v a e := by
      unfold memT
      rw [getVals_rowD]
      rw [List.isEmpty_iff] at hre
      rw [hre]
      simp [lookupA]
    have h1 : memT (matO s.vae v).1 x y z ↔ memT s.vae x y z := by
      unfold memT
      rw [getVals_matO]
    rw [h1]
    by_cases htr : x = v ∧ y = a ∧ z = e
    · obtain ⟨rfl, rfl, rfl⟩ := htr
      simp [hnm]
    · tauto
  · rw [if_neg hre] at h
    rw [matI_snd] at h
    rw [show (lookupA (rowD s.vae v) a).getD [] = getVals s.vae v a from
      (getVals_rowD s.vae v a).symm] at h
    by_cases hge : ¬ (getVals s.vae v a).isEmpty ∧ e ∈ getVals s.vae v a
    · rw [if_pos hge] at h
      cases h
      refine ⟨hEavMem, ?_, hwfE,
        wf_rrShape hwf.2 v a ((wf_getVals hwf.2 v a).erase e)⟩
      intro x y z
      show memT (setA (matO s.vae v).1 v
        (setA (matI (rowD s.vae v) a).1 a ((getVals s.vae v a).erase e))) x y z ↔ _
      unfold memT
      rw [getVals_rrShape]
      by_cases hvx : v = x
      · rw [if_pos hvx]
        by_cases hay : a = y
        · rw [if_pos hay]
          rw [List.Nodup.mem_erase_iff (wf_getVals hwf.2 v a)]
          subst hvx
          subst hay
          constructor
          · rintro ⟨hze, hz⟩
            exact ⟨hz, fun hc => hze hc.2.2⟩
          · rintro ⟨hz, hnc⟩
            exact ⟨fun hze => hnc ⟨rfl, rfl, hze⟩, hz⟩
        · have : ¬ (x = v ∧ y = a ∧ z = e) := fun hc => hay hc.2.1.symm
          rw [if_neg hay]
          tauto
      · have : ¬ (x = v ∧ y = a ∧ z = e) := fun hc => hvx hc.1.symm
        rw [if_neg hvx]
        tauto
    · rw [if_neg hge] at h
      cases h
      refine ⟨hEavMem, ?_, hwfE, wf_rrNoop hwf.2 v a⟩
      intro x y z
      have hne : ¬ memT s.vae v a e := by
        intro hm
        apply hge
        refine ⟨?_, hm⟩
        intro hemp
        rw [List.isEmpty_iff] at hemp
        unfold memT at hm
        rw [hemp] at hm
        cases hm
      show memT (setA (matO s.vae v).1 v (matI (rowD s.vae v) a).1) x y z ↔ _
      unfold memT
      rw [getVals_rrNoop]
      by_cases htr : x = v ∧ y = a ∧ z = e
      · obtain ⟨rfl, rfl, rfl⟩ := htr
        simp [memT] at hne
        simp [hne]
      · tauto

theorem invFR_ast_step (s s' : Store) (a e b v : String)
    (h : assertTriple s e b v = .ok s') (hinv : InvFR s a)
    (hrp : refPure s' a = true) : InvFR s' a := by
  obtain ⟨memE, memVt, memVf, _⟩ := assert_mem s s' e b v h
  intro x z
  have hE := memE x a z
  have hI := hinv x z
  by_cases hba : b = a
  · subst hba
    have hV := memVt hrp z b x
    rw [hE, hV]
    constructor
    · rintro (hm | ⟨h3, h4, h5⟩)
      · exact Or.inl (hI.1 hm)
      · exact Or.inr ⟨h5, rfl, h3⟩
    · rintro (hm | ⟨h3, h4, h5⟩)
      · exact Or.inl (hI.2 hm)
      · exact Or.inr ⟨h5, rfl, h3⟩
  · cases hr : refPure s' b with
    | true =>
        have hV := memVt hr z a x
        rw [hE, hV]
        constructor
        · rintro (hm | ⟨h3, hab, h5⟩)
          · exact Or.inl (hI.1 hm)
          · exact absurd hab.symm hba
        · rintro (hm | ⟨h3, hab, h5⟩)
          · exact Or.inl (hI.2 hm)
          · exact absurd hab.symm hba
    | false =>
        have hV := memVf hr
        rw [hE, hV]
        constructor
        · rintro (hm | ⟨h3, hab, h5⟩)
          · exact hI.1 hm
          · exact absurd hab.symm hba
        · intro hm
          exact Or.inl (hI.2 hm)

theorem invFR_ret_step (s s' : Store) (a e b v : String) (hwf : wfStore s)
    (h : retractTriple s e b v = .ok s') (hinv : InvFR s a) : InvFR s' a := by
  obtain ⟨memE, memV, _⟩ := retract_mem s s' e b v hwf h
  intro x z
  have hE := memE x a z
  have hV := memV z a x
  have hI := hinv x z
  rw [hE, hV]
  constructor
  · rintro ⟨hm, hn⟩
    exact ⟨hI.1 hm, fun hc => hn ⟨hc.2.2, hc.2.1, hc.1⟩⟩
  · rintro ⟨hm, hn⟩
    exact ⟨hI.2 hm, fun hc => hn ⟨hc.2.2, hc.2.1, hc.1⟩⟩

theorem wf_runOp (s s' : Store) (op : TOp) (hwf : wfStore s)
    (h : runOp s op = .ok s') : wfStore s' := by
  cases op with
  | ast e b v => exact (assert_mem s s' e b v h).2.2.2 hwf
  | ret e b v => exact (retract_mem s s' e b v hwf h).2.2

/-! ## Decidable bridges for the invariant and wellformedness -/

/-- Executable one-sided containment: every forward value set at `a` in `i`
is mirrored in `j`. -/
def subOne (i j : Idx) (a : String) : Bool :=
  i.all fun er => ((lookupA er.2 a).getD []).all fun v => decide (er.1 ∈ getVals j v a)

def invCheck (s : Store) (a : String) : Bool :=
  subOne s.eav s.vae a && subOne s.vae s.eav a

theorem subOne_imp {i j : Idx} {a : String} (h : subOne i j a = true) :
    ∀ e v, v ∈ getVals i e a → e ∈ getVals j v a := by
  intro e v hv
  rw [getVals_def] at hv
  cases hl : lookupA i e with
  | none => rw [hl] at hv; simp [lookupA] at hv
  | some row =>
      rw [hl] at hv
      simp only [Option.getD_some] at hv
      have h1 := List.all_eq_true.mp h (e, row) (lookupA_mem hl)
      have h2 := List.all_eq_true.mp h1 v hv
      exact of_decide_eq_true h2

theorem invCheck_imp {s : Store} {a : String} (h : invCheck s a = true) :
    InvFR s a := by
  unfold invCheck at h
  rw [Bool.and_eq_true] at h
  intro e v
  exact ⟨fun hm => subOne_imp h.1 e v hm, fun hm => subOne_imp h.2 v e hm⟩

def wfCheckIdx (idx : Idx) : Bool :=
  idx.all fun er => er.2.all fun av => decide av.2.Nodup

def wfCheck (s : Store) : Bool := wfCheckIdx s.eav && wfCheckIdx s.vae

theorem wfCheckIdx_imp {idx : Idx} (h : wfCheckIdx idx = true) : wfIdx idx := by
  intro k row hrow y vs hvs
  have h1 := List.all_eq_true.mp h (k, row) (lookupA_mem hrow)
  have h2 := List.all_eq_true.mp h1 (y, vs) (lookupA_mem hvs)
  exact of_decide_eq_true h2

theorem wfCheck_imp {s : Store} (h : wfCheck s = true) : wfStore s := by
  unfold wfCheck at h
  rw [Bool.and_eq_true] at h
  exact ⟨wfCheckIdx_imp h.1, wfCheckIdx_imp h.2⟩

/-- The order-of-operations counterexample to the literal reading of the claim:
the data triple is asserted before its attribute is declared reference-typed,
so the reverse index never receives the mirror entry even though the attribute
is reference-typed in the final store. -/
def refLateE : Except PyErr Store :=
  runOps mkStore
    [TOp.ast "e1" "my:ref" "b1",
     TOp.ast "my:ref" "db:valueType" "db.type:ref"]

def refLate : Store := refLateE.toOption.getD blankStore

/-- The witness run: two further primitive operations on the cycle store, with
`my:p` reference-typed throughout. -/
def wOps : List TOp := [TOp.ast "C" "my:p" "A", TOp.ret "A" "my:p" "B"]

def wFinalE : Except PyErr Store := runOps cycleStore wOps

def wFinal : Store := wFinalE.toOption.getD blankStore

/-- C1 (corrected).  Amended invariant: over any sequence of primitive
assert/retract operations during which the attribute `a` reads as
reference-typed after every successful step, forward membership
`(e, a, v) ∈ EAV` and reverse membership `(v, a, e) ∈ VAE` remain in
bijection (given a duplicate-free store satisfying the invariant at the
start).  The unamended claim — the bijection holds for every attribute that
is reference-typed in the *final* store, under *any* operation sequence — is
false: see the counterexample over `refLate`, where the `db:valueType`
declaration arrives after the data triple. -/
theorem C1_ref_forward_reverse_sync (s s' : Store) (a : String) (ops : List TOp)
    (hwf : wfStore s) (hinv : InvFR s a)
    (hstable : refStable a s ops = true)
    (hrun : runOps s ops = .ok s') : InvFR s' a := by
  induction ops generalizing s with
  | nil =>
      unfold runOps at hrun
      cases hrun
      exact hinv
  | cons op rest ih =>
      cases hop : runOp s op with
      | error err =>
          exfalso
          have h0 : runOps s (op :: rest) = .error err := by
            unfold runOps
            rw [hop]
            rfl
          rw [h0] at hrun
          cases hrun
      | ok s1 =>
          have hrun1 : runOps s1 rest = .ok s' := by
            unfold runOps at hrun
            rw [hop] at hrun
            exact hrun
          have hst1 : (refPure s1 a && refStable a s1 rest) = true := by
            unfold refStable at hstable
            rw [hop] at hstable
            exact hstable
          rw [Bool.and_eq_true] at hst1
          have hwf1 := wf_runOp s s1 op hwf hop
          have hinv1 : InvFR s1 a := by
            cases op with
            | ast e b v => exact invFR_ast_step s s1 a e b v hop hinv hst1.1
            | ret e b v => exact invFR_ret_step s s1 a e b v hwf hop hinv
          exact ih s1 hwf1 hinv1 hst1.2 hrun1

/-- C1 counterexample to the unamended claim: after asserting `(e1, my:ref, b1)`
and only then declaring `my:ref` as `db.type:ref`, the attribute reads as
reference-typed, the forward triple is present, but its reverse mirror is not. -/
theorem C1_counterexample :
    refLateE = .ok refLate
    ∧ refPure refLate "my:ref" = true
    ∧ memT refLate.eav "e1" "my:ref" "b1"
    ∧ ¬ memT refLate.vae "b1" "my:ref" "e1" :=
  ⟨rfl, rfl, by decide, by decide⟩

/-- C1 witness: the amended invariant instantiated on the concrete cycle store
and a concrete assert/retract run over `my:p`. -/
theorem C1_witness : InvFR wFinal "my:p" :=
  C1_ref_forward_reverse_sync cycleStore wFinal "my:p" wOps
    (wfCheck_imp (by decide)) (invCheck_imp (by decide)) (by decide) (by rfl)

/-! ## Batch fact assertion with natural keys -/

/-- `_assert_triple` only touches the two indices: every configuration field
of the store survives a successful assert. -/
theorem assert_frame (s s' : Store) (e a v : String)
    (h : assertTriple s e a v = .ok s') :
    s'.defaultCardinality = s.defaultCardinality ∧ s'.lazyRefs = s.lazyRefs
    ∧ s'.identAttr = s.identAttr ∧ s'.nextId = s.nextId := by
  obtain ⟨s1, s4, r, ⟨_, _, hdc, _, hlz, hia, hni⟩, hra, hs'⟩ :=
    assertOk_decomp s s' e a v h
  obtain ⟨nm, _, hs4, _⟩ := refAttr_spec _ a s4 r hra
  subst hs4
  by_cases hr : r = true
  · rw [if_pos hr] at hs'
    subst hs'
    exact ⟨hdc, hlz, hia, hni⟩
  · rw [if_neg hr] at hs'
    subst hs'
    exact ⟨hdc, hlz, hia, hni⟩

/-- A flat record of literal attribute/value pairs, as the fact dictionary
`{a1: v1, ..., ak: vk}` handed to `assert_facts`. -/
def toFact : List (String × String) → Fact
  | [] => []
  | (a, v) :: rest => (a, FVal.prim v) :: toFact rest

theorem lookupA_toFact (r : List (String × String)) (k : String) :
    lookupA (toFact r) k = (lookupA r k).map FVal.prim := by
  induction r with
  | nil => rfl
  | cons hd tl ih =>
      obtain ⟨a, v⟩ := hd
      unfold toFact lookupA
      by_cases h : a = k
      · simp [h]
      · simp [h, ih]

theorem genId_ne_empty (n : Nat) : genId n ≠ "" := by
  intro h
  have h1 : (genId n).data = [] := congrArg String.data h
  have h2 : (genId n).data = "uuid:".data ++ (toString n).data := rfl
  rw [h2] at h1
  rcases List.append_eq_nil.mp h1 with ⟨h3, _⟩
  exact absurd h3 (by decide)

theorem idGet_idSet_self (t : IdTable) (a v e : String) :
    idGet (idSet t a v e) a v = some e := by
  unfold idGet idSet
  rw [lookupA_setA, if_pos rfl]
  simp [lookupA_setA]

theorem factFuel_toFact (r : List (String × String)) :
    factFuel (toFact r) = 3 * r.length + 2 := by
  induction r with
  | nil => rfl
  | cons hd tl ih =>
      obtain ⟨a, v⟩ := hd
      show fvalFuel (.prim v) + factFuel (toFact tl) + 2 = 3 * ((a, v) :: tl).length + 2
      rw [ih]
      simp only [fvalFuel, List.length_cons]
      omega

/-! Step equations of the fuel-indexed assertion engine (all definitional). -/

theorem assertJob_val_prim (n : Nat) (s : Store) (ids : IdTable) (ia : List String)
    (e a w : String) :
    assertJob (n + 1) s ids ia (.val e a (.prim w)) =
      Except.bind (assertTriple s e a w) (fun t => .ok (t, ids, none)) := rfl

theorem assertJob_items_nil (n : Nat) (s : Store) (ids : IdTable) (ia : List String)
    (e : String) :
    assertJob (n + 1) s ids ia (.items e []) = .ok (s, ids, none) := rfl

theorem assertJob_items_step (n : Nat) (s : Store) (ids : IdTable) (ia : List String)
    (e a w : String) (rest : List (String × FVal)) :
    assertJob (n + 2) s ids ia (.items e ((a, FVal.prim w) :: rest)) =
      Except.bind (assertTriple s e a w)
        (fun t => assertJob (n + 1) t ids ia (.items e rest)) := by
  have h0 : assertJob (n + 2) s ids ia (.items e ((a, FVal.prim w) :: rest)) =
      Except.bind (assertJob (n + 1) s ids ia (.val e a (.prim w)))
        (fun p => assertJob (n + 1) p.1 p.2.1 ia (.items e rest)) := rfl
  rw [h0, assertJob_val_prim]
  cases hat : assertTriple s e a w <;> rfl

theorem assertJob_dict_step (n : Nat) (s : Store) (ids : IdTable) (ia : List String)
    (fact : Fact) (hid : lookupA fact s.identAttr = none) :
    assertJob (n + 1) s ids ia (.dict fact) =
      Except.bind (resolveEid s fact ia ids) (fun p =>
        Except.bind (assertJob n p.2.2 p.2.1 ia (.items p.1 fact)) (fun q =>
          Except.bind (assertTriple q.1 p.1 s.identAttr p.1)
            (fun t => .ok (t, q.2.1, some p.1)))) := by
  have h0 : assertJob (n + 1) s ids ia (.dict fact) =
      Except.bind (resolveEid s fact ia ids) (fun p =>
        Except.bind (assertJob n p.2.2 p.2.1 ia (.items p.1 fact)) (fun q =>
          match lookupA fact s.identAttr with
          | some iv =>
              if fvTruthy iv then .ok (q.1, q.2.1, some p.1)
              else Except.bind (assertTriple q.1 p.1 s.identAttr p.1)
                     (fun t => .ok (t, q.2.1, some p.1))
          | none => Except.bind (assertTriple q.1 p.1 s.identAttr p.1)
                      (fun t => .ok (t, q.2.1, some p.1)))) := rfl
  rw [h0, hid]

theorem assertFactsList_cons_eq (s : Store) (ids : IdTable) (f : TFact)
    (rest : List TFact) (ia : List String) :
    assertFactsList s ids (f :: rest) ia =
      Except.bind (assertFact s ids f ia) (fun p =>
        Except.bind (assertFactsList p.1 p.2.1 rest ia) (fun q =>
          .ok (q.1, q.2.1, p.2.2 :: q.2.2))) := rfl

theorem assertFactsList_nil_eq (s : Store) (ids : IdTable) (ia : List String) :
    assertFactsList s ids [] ia = .ok (s, ids, []) := rfl

theorem assertFact_dict_eq (s : Store) (ids : IdTable) (f : Fact) (ia : List String) :
    assertFact s ids (.dict f) ia =
      Except.bind (assertDict s ids f ia) (fun p => .ok (p.1, p.2.1, some p.2.2)) := rfl

theorem assertFacts_eq (s : Store) (facts : List TFact) (ia : List String) :
    assertFacts s facts ia =
      Except.bind (assertFactsList s [] facts ia) (fun p => .ok (p.1, p.2.2)) := rfl

/-- Running the `_assert_dict` item loop on a flat record: the identity table
is untouched, the asserted triples are exactly the record's pairs at `e`, and
every configuration field survives. -/
theorem assertJob_items_flat (r : List (String × String)) :
    ∀ (n : Nat) (s : Store) (ids : IdTable) (ia : List String) (e : String)
      (s1 : Store) (ids1 : IdTable) (o : Option String),
      r.length < n →
      assertJob n s ids ia (.items e (toFact r)) = .ok (s1, ids1, o) →
      ids1 = ids ∧ o = none
      ∧ (∀ x y z, memT s1.eav x y z ↔ (memT s.eav x y z ∨ (x = e ∧ (y, z) ∈ r)))
      ∧ (wfStore s → wfStore s1)
      ∧ s1.defaultCardinality = s.defaultCardinality
      ∧ s1.lazyRefs = s.lazyRefs
      ∧ s1.identAttr = s.identAttr
      ∧ s1.nextId = s.nextId := by
  induction r with
  | nil =>
      intro n s ids ia e s1 ids1 o hn h
      cases n with
      | zero => exact absurd hn (Nat.lt_irrefl 0)
      | succ m =>
          rw [show toFact [] = ([] : Fact) from rfl, assertJob_items_nil] at h
          have hp := Except.ok.inj h
          have h1 : s = s1 := congrArg (fun p => p.1) hp
          have h2 : ids = ids1 := congrArg (fun p => p.2.1) hp
          have h3 : (none : Option String) = o := congrArg (fun p => p.2.2) hp
          subst h1
          subst h2
          subst h3
          refine ⟨rfl, rfl, ?_, fun hw => hw, rfl, rfl, rfl, rfl⟩
          intro x y z
          simp
  | cons hd tl ih =>
      intro n s ids ia e s1 ids1 o hn h
      obtain ⟨a0, v0⟩ := hd
      cases n with
      | zero => exact absurd hn (Nat.not_lt_zero _)
      | succ m =>
          cases m with
          | zero =>
              rw [List.length_cons] at hn
              omega
          | succ k =>
              rw [show toFact ((a0, v0) :: tl) = (a0, FVal.prim v0) :: toFact tl from rfl,
                  assertJob_items_step] at h
              cases hat : assertTriple s e a0 v0 with
              | error err =>
                  rw [hat] at h
                  simp [Except.bind] at h
              | ok t =>
                  rw [hat] at h
                  have h' : assertJob (k + 1) t ids ia (.items e (toFact tl)) =
                      .ok (s1, ids1, o) := h
                  have hn' : tl.length < k + 1 := by
                    rw [List.length_cons] at hn
                    omega
                  obtain ⟨hids, ho, hmem, hwf, hdc, hlz, hia2, hni⟩ :=
                    ih (k + 1) t ids ia e s1 ids1 o hn' h'
                  obtain ⟨memE, _, _, hwfA⟩ := assert_mem s t e a0 v0 hat
                  obtain ⟨hdcA, hlzA, hiaA, hniA⟩ := assert_frame s t e a0 v0 hat
                  refine ⟨hids, ho, ?_, fun hw => hwf (hwfA hw), hdc.trans hdcA,
                    hlz.trans hlzA, hia2.trans hiaA, hni.trans hniA⟩
                  intro x y z
                  rw [hmem x y z, memE x y z]
                  constructor
                  · rintro ((hm | ⟨rfl, rfl, rfl⟩) | ⟨rfl, hin⟩)
                    · exact Or.inl hm
                    · exact Or.inr ⟨rfl, List.mem_cons_self _ _⟩
                    · exact Or.inr ⟨rfl, List.mem_cons_of_mem _ hin⟩
                  · rintro (hm | ⟨rfl, hin⟩)
                    · exact Or.inl (Or.inl hm)
                    · rcases List.mem_cons.mp hin with heq | hin2
                      · injection heq with h1 h2
                        subst h1
                        subst h2
                        exact Or.inl (Or.inr ⟨rfl, rfl, rfl⟩)
                      · exact Or.inr ⟨rfl, hin2⟩

/-- `_resolve_eid` on a flat record carrying the natural key `a` with value `x`
and no explicit identity: look the key up in the shared table; reuse a recorded
non-empty eid, else mint a fresh one and record it. -/
theorem resolveEid_flat (s : Store) (r : List (String × String)) (a x : String)
    (ids : IdTable) (hx : lookupA r a = some x)
    (hid : lookupA r s.identAttr = none) :
    resolveEid s (toFact r) [a] ids =
      match idGet ids a x with
      | some w =>
          if w = "" then
            .ok (genId s.nextId, idSet ids a x (genId s.nextId),
                 { s with nextId := s.nextId + 1 })
          else .ok (w, ids, s)
      | none =>
          .ok (genId s.nextId, idSet ids a x (genId s.nextId),
               { s with nextId := s.nextId + 1 }) := by
  have hfx : lookupA (toFact r) a = some (FVal.prim x) := by
    rw [lookupA_toFact, hx]
    rfl
  have hfid : lookupA (toFact r) s.identAttr = none := by
    rw [lookupA_toFact, hid]
    rfl
  unfold resolveEid
  rw [hfid]
  simp only [List.isEmpty, Bool.false_eq_true, if_false, List.foldlM, hfx, bind,
    Except.bind, pure, Except.pure, setA]
  unfold resolveEid.resolveEidNoIdent
  cases hg : idGet ids a x with
  | none => simp [List.filterMap, List.foldl, hfx]
  | some w =>
      by_cases hw : w = ""
      · subst hw
        simp [List.filterMap, List.filter, List.foldl, hfx]
      · have hL : List.filter (fun x => decide (x ≠ ""))
            (List.filterMap Prod.snd [(a, some w)]) = [w] := by
          simp [List.filterMap, List.filter, hw]
        rw [hL, List.dedup_cons_of_not_mem (List.not_mem_nil w), List.dedup_nil]
        simp [hw]

/-- `_assert_dict` on a flat record whose natural key `(a, x)` is not yet in
the shared table: a fresh eid is minted and recorded, and all pairs land on it. -/
theorem assertDict_flat_fresh (s : Store) (ids : IdTable) (r : List (String × String))
    (a x : String) (s1 : Store) (ids1 : IdTable) (eid : String)
    (hx : lookupA r a = some x) (hid : lookupA r s.identAttr = none)
    (hg : idGet ids a x = none)
    (h : assertDict s ids (toFact r) [a] = .ok (s1, ids1, eid)) :
    eid = genId s.nextId
    ∧ ids1 = idSet ids a x (genId s.nextId)
    ∧ (∀ p ∈ r, memT s1.eav (genId s.nextId) p.1 p.2)
    ∧ (∀ u y z, memT s.eav u y z → memT s1.eav u y z)
    ∧ (wfStore s → wfStore s1)
    ∧ s1.identAttr = s.identAttr
    ∧ s1.nextId = s.nextId + 1 := by
  unfold assertDict at h
  rw [factFuel_toFact] at h
  rw [show 3 * r.length + 2 = (3 * r.length + 1) + 1 from rfl] at h
  rw [assertJob_dict_step _ _ _ _ _ (by rw [lookupA_toFact, hid]; rfl)] at h
  rw [resolveEid_flat s r a x ids hx hid, hg] at h
  dsimp only [Except.bind] at h
  cases hrun : assertJob (3 * r.length + 1) { s with nextId := s.nextId + 1 }
      (idSet ids a x (genId s.nextId)) [a]
      (.items (genId s.nextId) (toFact r)) with
  | error err =>
      rw [hrun] at h
      simp [bind, Except.bind] at h
  | ok q =>
      obtain ⟨s2, ids2, o2⟩ := q
      rw [hrun] at h
      dsimp only [Except.bind] at h
      cases hat : assertTriple s2 (genId s.nextId) s.identAttr (genId s.nextId) with
      | error err =>
          rw [hat] at h
          simp [bind, Except.bind] at h
      | ok t =>
          rw [hat] at h
          dsimp only [Except.bind, Option.getD] at h
          have hp := Except.ok.inj h
          have he1 : t = s1 := congrArg (fun p => p.1) hp
          have he2 : ids2 = ids1 := congrArg (fun p => p.2.1) hp
          have he3 : genId s.nextId = eid := congrArg (fun p => p.2.2) hp
          obtain ⟨hids, _, hmem, hwf, _, _, hia2, hni⟩ :=
            assertJob_items_flat r (3 * r.length + 1) _ _ [a] (genId s.nextId)
              s2 ids2 o2 (by omega) hrun
          obtain ⟨memE, _, _, hwfA⟩ :=
            assert_mem s2 t (genId s.nextId) s.identAttr (genId s.nextId) hat
          obtain ⟨_, _, hiaA, hniA⟩ :=
            assert_frame s2 t (genId s.nextId) s.identAttr (genId s.nextId) hat
          subst he1
          subst he2
          refine ⟨he3.symm, hids, ?_, ?_, ?_, ?_, ?_⟩
          · intro p hp2
            exact (memE (genId s.nextId) p.1 p.2).2
              (Or.inl ((hmem (genId s.nextId) p.1 p.2).2 (Or.inr ⟨rfl, hp2⟩)))
          · intro u y z hm
            exact (memE u y z).2 (Or.inl ((hmem u y z).2 (Or.inl hm)))
          · intro hws
            exact hwfA (hwf hws)
          · exact hiaA.trans hia2
          · exact hniA.trans hni

/-- `_assert_dict` on a flat record whose natural key `(a, x)` is already
recorded (with a nonempty eid `w`): the record merges onto `w` and the table
is unchanged. -/
theorem assertDict_flat_merge (s : Store) (ids : IdTable) (r : List (String × String))
    (a x w : String) (s1 : Store) (ids1 : IdTable) (eid : String)
    (hx : lookupA r a = some x) (hid : lookupA r s.identAttr = none)
    (hg : idGet ids a x = some w) (hw : w ≠ "")
    (h : assertDict s ids (toFact r) [a] = .ok (s1, ids1, eid)) :
    eid = w
    ∧ ids1 = ids
    ∧ (∀ p ∈ r, memT s1.eav w p.1 p.2)
    ∧ (∀ u y z, memT s.eav u y z → memT s1.eav u y z)
    ∧ (wfStore s → wfStore s1)
    ∧ s1.identAttr = s.identAttr
    ∧ s1.nextId = s.nextId := by
  unfold assertDict at h
  rw [factFuel_toFact] at h
  rw [show 3 * r.length + 2 = (3 * r.length + 1) + 1 from rfl] at h
  rw [assertJob_dict_step _ _ _ _ _ (by rw [lookupA_toFact, hid]; rfl)] at h
  rw [resolveEid_flat s r a x ids hx hid, hg] at h
  dsimp only at h
  rw [if_neg hw] at h
  dsimp only [Except.bind] at h
  cases hrun : assertJob (3 * r.length + 1) s ids [a] (.items w (toFact r)) with
  | error err =>
      rw [hrun] at h
      simp [bind, Except.bind] at h
  | ok q =>
      obtain ⟨s2, ids2, o2⟩ := q
      rw [hrun] at h
      dsimp only [Except.bind] at h
      cases hat : assertTriple s2 w s.identAttr w with
      | error err =>
          rw [hat] at h
          simp [bind, Except.bind] at h
      | ok t =>
          rw [hat] at h
          dsimp only [Except.bind, Option.getD] at h
          have hp := Except.ok.inj h
          have he1 : t = s1 := congrArg (fun p => p.1) hp
          have he2 : ids2 = ids1 := congrArg (fun p => p.2.1) hp
          have he3 : w = eid := congrArg (fun p => p.2.2) hp
          obtain ⟨hids, _, hmem, hwf, _, _, hia2, hni⟩ :=
            assertJob_items_flat r (3 * r.length + 1) s ids [a] w
              s2 ids2 o2 (by omega) hrun
          obtain ⟨memE, _, _, hwfA⟩ := assert_mem s2 t w s.identAttr w hat
          obtain ⟨_, _, hiaA, hniA⟩ := assert_frame s2 t w s.identAttr w hat
          subst he1
          subst he2
          refine ⟨he3.symm, hids, ?_, ?_, ?_, ?_, ?_⟩
          · intro p hp2
            exact (memE w p.1 p.2).2
              (Or.inl ((hmem w p.1 p.2).2 (Or.inr ⟨rfl, hp2⟩)))
          · intro u y z hm
            exact (memE u y z).2 (Or.inl ((hmem u y z).2 (Or.inl hm)))
          · intro hws
            exact hwfA (hwf hws)
          · exact hiaA.trans hia2
          · exact hniA.trans hni

/-- C8 (confirmed).  A batch `assert_facts` call over two flat fact records
that share the natural-key pair `(a, x)` and carry no explicit identity
resolves both records to the single fresh eid minted for the first one, and
every attribute/value pair of either record is present on that one entity in
the final store. -/
theorem C8_natural_key_merge (s : Store) (r1 r2 : List (String × String))
    (a x : String) (s' : Store) (eids : List (Option String))
    (hx1 : lookupA r1 a = some x) (hx2 : lookupA r2 a = some x)
    (hid1 : lookupA r1 s.identAttr = none) (hid2 : lookupA r2 s.identAttr = none)
    (h : assertFacts s [.dict (toFact r1), .dict (toFact r2)] [a] = .ok (s', eids)) :
    eids = [some (genId s.nextId), some (genId s.nextId)]
    ∧ ∀ p ∈ r1 ++ r2, memT s'.eav (genId s.nextId) p.1 p.2 := by
  rw [assertFacts_eq, assertFactsList_cons_eq, assertFact_dict_eq] at h
  cases h1 : assertDict s [] (toFact r1) [a] with
  | error err =>
      rw [h1] at h
      simp [bind, Except.bind] at h
  | ok p1 =>
      obtain ⟨s1, ids1, e1⟩ := p1
      rw [h1] at h
      dsimp only [Except.bind] at h
      rw [assertFactsList_cons_eq, assertFact_dict_eq] at h
      obtain ⟨he1, hids1, hmem1, _, _, hia1, _⟩ :=
        assertDict_flat_fresh s [] r1 a x s1 ids1 e1 hx1 hid1 rfl h1
      cases h2 : assertDict s1 ids1 (toFact r2) [a] with
      | error err =>
          rw [h2] at h
          simp [bind, Except.bind] at h
      | ok p2 =>
          obtain ⟨s2, ids2, e2⟩ := p2
          rw [h2] at h
          dsimp only [Except.bind] at h
          rw [assertFactsList_nil_eq] at h
          dsimp only [Except.bind] at h
          obtain ⟨he2, _, hmem2, hmono2, _, _, _⟩ :=
            assertDict_flat_merge s1 ids1 r2 a x (genId s.nextId) s2 ids2 e2 hx2
              (by rw [hia1]; exact hid2)
              (by rw [hids1]; exact idGet_idSet_self [] a x (genId s.nextId))
              (genId_ne_empty s.nextId) h2
          have hp := Except.ok.inj h
          have hs2 : s2 = s' := congrArg Prod.fst hp
          have hlist : [some e1, some e2] = eids := congrArg Prod.snd hp
          subst hs2
          constructor
          · rw [← hlist, he1, he2]
          · intro p hp3
            rcases List.mem_append.mp hp3 with hp4 | hp4
            · exact hmono2 _ _ _ (hmem1 p hp4)
            · exact hmem2 p hp4

/-- The two flat records of the C8 witness: same natural key `x:code = K1`,
distinct extra attributes. -/
def c8Rec1 : List (String × String) := [("x:code", "K1"), ("x:a", "1")]

def c8Rec2 : List (String × String) := [("x:code", "K1"), ("x:b", "2")]

def c8E : Except PyErr (Store × List (Option String)) :=
  assertFacts mkStore [.dict (toFact c8Rec1), .dict (toFact c8Rec2)] ["x:code"]

def c8Store : Store := (c8E.map Prod.fst).toOption.getD blankStore

def c8Eids : List (Option String) := (c8E.map Prod.snd).toOption.getD []

/-- C8 witness: the natural-key merge instantiated on the base-schema store
with two concrete records sharing `x:code = K1`. -/
theorem C8_witness :
    c8Eids = [some (genId mkStore.nextId), some (genId mkStore.nextId)]
    ∧ ∀ p ∈ c8Rec1 ++ c8Rec2, memT c8Store.eav (genId mkStore.nextId) p.1 p.2 :=
  C8_natural_key_merge mkStore c8Rec1 c8Rec2 "x:code" "K1" c8Store c8Eids
    (by decide) (by decide) (by decide) (by decide) (by rfl)

/-! ## Frame effects of reads: outer-key materialization -/

theorem keysOf_append {α : Type} (l1 l2 : List (String × α)) :
    keysOf (l1 ++ l2) = keysOf l1 ++ keysOf l2 := List.map_append _ _ _

theorem mem_keysOf_of_lookupA {α : Type} {l : List (String × α)} {k : String} {r : α}
    (h : lookupA l k = some r) : k ∈ keysOf l :=
  List.mem_map.mpr ⟨(k, r), lookupA_mem h, rfl⟩

theorem lookupA_eq_none {α : Type} (l : List (String × α)) (k : String)
    (h : k ∉ keysOf l) : lookupA l k = none := by
  cases hl : lookupA l k with
  | none => rfl
  | some r => exact absurd (mem_keysOf_of_lookupA hl) h

theorem mem_keysOf_matO (idx : Idx) (e k : String) (h : k ∈ keysOf idx) :
    k ∈ keysOf (matO idx e).1 := by
  cases hl : lookupA idx e with
  | some r => rw [matO_present idx e r hl]; exact h
  | none => rw [matO_absent idx e hl]; rw [keysOf_append]; exact List.mem_append_left _ h

theorem self_mem_keysOf_matO (idx : Idx) (e : String) : e ∈ keysOf (matO idx e).1 := by
  cases hl : lookupA idx e with
  | some r => rw [matO_present idx e r hl]; exact mem_keysOf_of_lookupA hl
  | none =>
      rw [matO_absent idx e hl, keysOf_append]
      exact List.mem_append_right _ (by simp [keysOf])

theorem mem_keysOf_setA {α : Type} (l : List (String × α)) (a : String) (v : α)
    (k : String) (h : k ∈ keysOf l) : k ∈ keysOf (setA l a v) := by
  induction l with
  | nil => simp [keysOf] at h
  | cons hd tl ih =>
      obtain ⟨k0, v0⟩ := hd
      unfold setA
      by_cases h0 : k0 = a
      · rw [if_pos h0]
        exact h
      · rw [if_neg h0]
        rcases List.mem_cons.mp h with h1 | h1
        · exact List.mem_cons.mpr (Or.inl h1)
        · exact List.mem_cons.mpr (Or.inr (ih h1))

theorem mem_keysOf_mat2 (idx : Idx) (e a k : String) (h : k ∈ keysOf idx) :
    k ∈ keysOf (mat2 idx e a).1 :=
  mem_keysOf_setA _ e _ k (mem_keysOf_matO idx e k h)

theorem self_mem_keysOf_mat2 (idx : Idx) (e a : String) : e ∈ keysOf (mat2 idx e a).1 :=
  mem_keysOf_setA _ e _ e (self_mem_keysOf_matO idx e)

theorem matEAV_fst (s : Store) (e a : String) :
    (matEAV s e a).1 = { s with eav := (mat2 s.eav e a).1 } := rfl

theorem matVAE_fst (s : Store) (e a : String) :
    (matVAE s e a).1 = { s with vae := (mat2 s.vae e a).1 } := rfl

theorem lazyScan_fold_keys (l : Idx) (rev eid : String) :
    ∀ (acc1 : Idx) (acc2 : List String),
      keysOf (l.foldl
        (fun (acc : Idx × List String) ent =>
          let (row1, vs) := matI ent.2 rev
          (acc.1 ++ [(ent.1, row1)], if eid ∈ vs then acc.2 ++ [ent.1] else acc.2))
        (acc1, acc2)).1 = keysOf acc1 ++ keysOf l := by
  induction l with
  | nil => intro acc1 acc2; simp [keysOf]
  | cons hd tl ih =>
      intro acc1 acc2
      rw [List.foldl_cons]
      by_cases hm : eid ∈ (matI hd.2 rev).2
      · refine Eq.trans (congrArg _ (congrArg _ ?_))
          (Eq.trans (ih (acc1 ++ [(hd.1, (matI hd.2 rev).1)])
            (acc2 ++ [hd.1])) (by simp [keysOf]))
        simp [hm]
      · refine Eq.trans (congrArg _ (congrArg _ ?_))
          (Eq.trans (ih (acc1 ++ [(hd.1, (matI hd.2 rev).1)]) acc2) (by simp [keysOf]))
        simp [hm]

theorem keysOf_lazyScan (s : Store) (rev eid : String) :
    keysOf (lazyScan s rev eid).1.eav = keysOf s.eav := by
  show keysOf (s.eav.foldl _ ([], [])).1 = keysOf s.eav
  rw [lazyScan_fold_keys]
  rfl

theorem keys_mono_cardOne (s : Store) (a : String) (s1 : Store) (b : Bool)
    (h : cardOne s a = .ok (s1, b)) (k : String) (hk : k ∈ keysOf s.eav) :
    k ∈ keysOf s1.eav := by
  rw [cardOne_eq] at h
  cases hrl : reverseLookup a with
  | error err => rw [hrl] at h; cases h
  | ok o =>
      rw [hrl] at h
      cases o with
      | some r =>
          have h1 : s = s1 := congrArg Prod.fst (Except.ok.inj h)
          exact h1 ▸ hk
      | none =>
          by_cases hdb : a = "db:cardinality"
          · rw [if_pos hdb] at h
            have h1 : s = s1 := congrArg Prod.fst (Except.ok.inj h)
            exact h1 ▸ hk
          · rw [if_neg hdb] at h
            have h1 : ({ s with eav := (matO s.eav a).1 } : Store) = s1 :=
              congrArg Prod.fst (Except.ok.inj h)
            rw [← h1]
            exact mem_keysOf_matO s.eav a k hk

theorem keys_mono_refAttr (s : Store) (a : String) (s1 : Store) (b : Bool)
    (h : refAttr s a = .ok (s1, b)) (k : String) (hk : k ∈ keysOf s.eav) :
    k ∈ keysOf s1.eav := by
  obtain ⟨nm, _, hs1, _⟩ := refAttr_spec s a s1 b h
  subst hs1
  exact mem_keysOf_matO s.eav nm k hk

theorem keys_mono_pullNormals :
    ∀ (l : List String) (s : Store) (eid : String) (acc : PullRes) (k : String),
      k ∈ keysOf s.eav → k ∈ keysOf (pullNormals s eid l acc).1.eav := by
  intro l
  induction l with
  | nil => intro s eid acc k hk; exact hk
  | cons a rest ih =>
      intro s eid acc k hk
      show k ∈ keysOf (pullNormals (matEAV s eid a).1 eid rest _).1.eav
      exact ih _ eid _ k (mem_keysOf_mat2 s.eav eid a k hk)

theorem bind_ok_decomp {α β : Type} (x : Except PyErr α) (f : α → Except PyErr β)
    (b : β) (h : Except.bind x f = .ok b) : ∃ a, x = .ok a ∧ f a = .ok b := by
  cases x with
  | error e => simp [Except.bind] at h
  | ok a => exact ⟨a, rfl, h⟩

theorem keys_mono_shape :
    ∀ (pd : PullRes) (s s1 : Store) (pd1 : PullRes),
      shapePullData s pd = .ok (s1, pd1) →
      ∀ k, k ∈ keysOf s.eav → k ∈ keysOf s1.eav := by
  intro pd
  induction pd with
  | nil =>
      intro s s1 pd1 h k hk
      have h1 : s = s1 := congrArg Prod.fst (Except.ok.inj h)
      exact h1 ▸ hk
  | cons hd tl ih =>
      intro s s1 pd1 h k hk
      obtain ⟨a0, pv0⟩ := hd
      unfold shapePullData at h
      obtain ⟨p, hco, h⟩ := bind_ok_decomp _ _ _ h
      dsimp only at h
      obtain ⟨q, hsh, h⟩ := bind_ok_decomp _ _ _ h
      have hq : q.1 = s1 := congrArg Prod.fst (Except.ok.inj h)
      rw [← hq]
      exact ih p.1 q.1 q.2 hsh k (keys_mono_cardOne s a0 p.1 p.2 hco k hk)

theorem keys_mono_pullEids {rec : PullRec}
    (hrec : ∀ st te e sn bp st1 r1, rec st te e sn bp = .ok (st1, r1) →
      ∀ k, k ∈ keysOf st.eav → k ∈ keysOf st1.eav) :
    ∀ (eids : List String) {s : Store} {te : Option (List PTok)}
      {sn : Option (List String)} {bp : Option (List PTok)}
      {s1 : Store} {rs : List PullRes},
      pullEids rec s te eids sn bp = .ok (s1, rs) →
      ∀ k, k ∈ keysOf s.eav → k ∈ keysOf s1.eav := by
  intro eids
  induction eids with
  | nil =>
      intro s te sn bp s1 rs h k hk
      have h1 : s = s1 := congrArg Prod.fst (Except.ok.inj h)
      exact h1 ▸ hk
  | cons e rest ih =>
      intro s te sn bp s1 rs h k hk
      unfold pullEids at h
      obtain ⟨p, hr, h⟩ := bind_ok_decomp _ _ _ h
      dsimp only at h
      obtain ⟨q, hre, h⟩ := bind_ok_decomp _ _ _ h
      have hq : q.1 = s1 := congrArg Prod.fst (Except.ok.inj h)
      rw [← hq]
      exact ih hre k (hrec s te e sn bp p.1 p.2 hr k hk)

set_option maxHeartbeats 1000000 in
theorem keys_mono_pullPairs {rec : PullRec}
    (hrec : ∀ st te e sn bp st1 r1, rec st te e sn bp = .ok (st1, r1) →
      ∀ k, k ∈ keysOf st.eav → k ∈ keysOf st1.eav) :
    ∀ (pairs : List (String × Option (List PTok))) {s : Store} {eid : String}
      {pd : PullRes} {sn : Option (List String)} {toks : List PTok}
      {bp : Option (List PTok)} {s1 : Store} {pd1 : PullRes}
      {sn1 : Option (List String)},
      pullPairs rec s eid pairs pd sn toks bp = .ok (s1, pd1, sn1) →
      ∀ k, k ∈ keysOf s.eav → k ∈ keysOf s1.eav := by
  intro pairs
  induction pairs with
  | nil =>
      intro s eid pd sn toks bp s1 pd1 sn1 h k hk
      have h1 : s = s1 := congrArg Prod.fst (Except.ok.inj h)
      exact h1 ▸ hk
  | cons hd rest ih =>
      intro s eid pd sn toks bp s1 pd1 sn1 h k hk
      obtain ⟨attr, tok⟩ := hd
      unfold pullPairs at h
      obtain ⟨rv, hrl, h⟩ := bind_ok_decomp _ _ _ h
      cases rv with
      | none =>
          obtain ⟨p, hsel, h⟩ := bind_ok_decomp _ _ _ h
          have hp : matEAV s eid attr = p := Except.ok.inj hsel
          have hkp : k ∈ keysOf p.1.eav := by
            rw [← hp]
            exact mem_keysOf_mat2 s.eav eid attr k hk
          cases tok with
          | none =>
              dsimp only at h
              obtain ⟨q, hpe, h⟩ := bind_ok_decomp _ _ _ h
              exact ih h k (keys_mono_pullEids hrec p.2 hpe k
                (mem_keysOf_mat2 p.1.eav eid attr k hkp))
          | some sub =>
              dsimp only at h
              obtain ⟨q, hpe, h⟩ := bind_ok_decomp _ _ _ h
              exact ih h k (keys_mono_pullEids hrec p.2 hpe k hkp)
      | some realAttr =>
          obtain ⟨pr, hra, h⟩ := bind_ok_decomp _ _ _ h
          obtain ⟨sa, isRef⟩ := pr
          dsimp only at h
          have hk0 : k ∈ keysOf sa.eav :=
            keys_mono_refAttr s realAttr sa isRef hra k hk
          by_cases hb : isRef = true
          · rw [if_pos hb] at h
            obtain ⟨p, hsel, h⟩ := bind_ok_decomp _ _ _ h
            have hp : matVAE sa eid realAttr = p := Except.ok.inj hsel
            have hkp : k ∈ keysOf p.1.eav := by
              rw [← hp]
              exact hk0
            cases tok with
            | none =>
                dsimp only at h
                obtain ⟨q, hpe, h⟩ := bind_ok_decomp _ _ _ h
                exact ih h k (keys_mono_pullEids hrec p.2 hpe k
                  (mem_keysOf_mat2 p.1.eav eid attr k hkp))
            | some sub =>
                dsimp only at h
                obtain ⟨q, hpe, h⟩ := bind_ok_decomp _ _ _ h
                exact ih h k (keys_mono_pullEids hrec p.2 hpe k hkp)
          · rw [if_neg hb] at h
            by_cases hl : sa.lazyRefs = true
            · rw [if_pos hl] at h
              obtain ⟨p, hsel, h⟩ := bind_ok_decomp _ _ _ h
              have hp : lazyScan sa realAttr eid = p := Except.ok.inj hsel
              have hkp : k ∈ keysOf p.1.eav := by
                rw [← hp, keysOf_lazyScan]
                exact hk0
              cases tok with
              | none =>
                  dsimp only at h
                  obtain ⟨q, hpe, h⟩ := bind_ok_decomp _ _ _ h
                  exact ih h k (keys_mono_pullEids hrec p.2 hpe k
                    (mem_keysOf_mat2 p.1.eav eid attr k hkp))
              | some sub =>
                  dsimp only at h
                  obtain ⟨q, hpe, h⟩ := bind_ok_decomp _ _ _ h
                  exact ih h k (keys_mono_pullEids hrec p.2 hpe k hkp)
            · rw [if_neg hl] at h
              obtain ⟨p, hsel, h⟩ := bind_ok_decomp _ _ _ h
              exact absurd hsel (by simp)

/-- The `.eid` branch of `pullF` as its monadic decomposition (definitional). -/
theorem pullF_eid_eq (f : Nat) (s : Store) (toks : List PTok) (eid : String)
    (seen : Option (List String)) (bp : Option (List PTok)) :
    pullF (f + 1) s (some toks) (.eid eid) seen bp =
      Except.bind (filterNormals (toks.filterMap fun t =>
          match t with | PTok.s a => some a | _ => none))
        (fun normals =>
          Except.bind
            (pullPairs (fun st te e sn bp2 => pullF f st te (.eid e) sn bp2)
              (pullNormals { s with eav := (matO s.eav eid).1 } eid normals []).1 eid
              ((toks.filterMap fun t =>
                match t with | PTok.d ps => some ps | _ => none).flatten)
              (pullNormals { s with eav := (matO s.eav eid).1 } eid normals []).2
              (some (match seen with
                     | some (l@(_ :: _)) => l
                     | _ => [eid]))
              toks bp)
            (fun q => shapePullData q.1 q.2.1)) := rfl

theorem keys_mono_pullF :
    ∀ (fuel : Nat) (s : Store) (expr : Option (List PTok)) (tgt : PTarget)
      (seen : Option (List String)) (bp : Option (List PTok))
      (s1 : Store) (res : PullRes),
      pullF fuel s expr tgt seen bp = .ok (s1, res) →
      ∀ k, k ∈ keysOf s.eav → k ∈ keysOf s1.eav := by
  intro fuel
  induction fuel with
  | zero =>
      intro s expr tgt seen bp s1 res h k hk
      simp [pullF] at h
  | succ f ih =>
      intro s expr tgt seen bp s1 res h k hk
      cases tgt with
      | pat p => simp [pullF] at h
      | eid eid =>
          cases expr with
          | none => simp [pullF] at h
          | some toks =>
              rw [pullF_eid_eq] at h
              obtain ⟨normals, hfn, h⟩ := bind_ok_decomp _ _ _ h
              obtain ⟨q3, hpp, h⟩ := bind_ok_decomp _ _ _ h
              refine keys_mono_shape _ _ _ _ h k ?_
              refine keys_mono_pullPairs
                (fun st te e sn bp2 st' r' hr => ih st te (.eid e) sn bp2 st' r' hr)
                _ hpp k ?_
              exact keys_mono_pullNormals normals _ eid [] k
                (mem_keysOf_matO s.eav eid k hk)

/-- `pull` on an eid target materializes that eid as an outer key of the
forward index, and the key survives to the final store. -/
theorem pullF_eid_keys (f : Nat) (s : Store) (toks : List PTok) (eid : String)
    (seen : Option (List String)) (bp : Option (List PTok))
    (s1 : Store) (res : PullRes)
    (h : pullF (f + 1) s (some toks) (.eid eid) seen bp = .ok (s1, res)) :
    eid ∈ keysOf s1.eav := by
  rw [pullF_eid_eq] at h
  obtain ⟨normals, hfn, h⟩ := bind_ok_decomp _ _ _ h
  obtain ⟨q3, hpp, h⟩ := bind_ok_decomp _ _ _ h
  refine keys_mono_shape _ _ _ _ h eid ?_
  refine keys_mono_pullPairs
    (fun st te e sn bp2 st' r' hr => keys_mono_pullF f st te (.eid e) sn bp2 st' r' hr)
    _ hpp eid ?_
  exact keys_mono_pullNormals normals _ eid [] eid (self_mem_keysOf_matO s.eav eid)

/-- C10 (confirmed, implicit claim).  Reads are not frame-preserving on the
forward index: constructing an `Entity` over an absent eid appends an empty
row under that eid; `_entity_match` against an attribute the entity lacks
appends an empty value set for that attribute inside the row (and the match
fails); a successful `pull` of an eid leaves that eid as an outer key of the
forward index, so a subsequent `match_pattern` with the empty pattern reports
it. -/
theorem C10_reads_materialize (s : Store) (eid : String) (fuel : Nat)
    (toks : List PTok) (s' : Store) (res : PullRes)
    (hnk : eid ∉ keysOf s.eav)
    (hp : pull (fuel + 1) s toks (.eid eid) = .ok (s', res)) :
    (entityInit s eid).eav = s.eav ++ [(eid, [])]
    ∧ (∀ (row : Row) (a : String) (pv : PatV) (rest : Pattern),
        lookupA row a = none →
        entityMatch row ((a, pv) :: rest) = (row ++ [(a, [])], false))
    ∧ eid ∈ keysOf s'.eav
    ∧ eid ∈ (matchPattern s' []).2 := by
  have hkey : eid ∈ keysOf s'.eav :=
    pullF_eid_keys fuel s toks eid none none s' res hp
  refine ⟨?_, ?_, hkey, ?_⟩
  · show (matO s.eav eid).1 = _
    rw [matO_absent s.eav eid (lookupA_eq_none s.eav eid hnk)]
  · intro row a pv rest hnone
    have hmi : matI row a = (row ++ [(a, [])], []) := by
      unfold matI
      rw [hnone]
    unfold entityMatch
    rw [hmi]
    simp
  · have hmp : matchPattern s' [] = (s', keysOf s'.eav) := by
      unfold matchPattern matchFold
      rw [matchPattern_empty_aux]
      simp
    rw [hmp]
    exact hkey

def c10E : Except PyErr (Store × PullRes) := pull 1 mkStore [] (.eid "ghost:e")

def c10Store : Store := (c10E.map Prod.fst).toOption.getD blankStore

def c10Res : PullRes := (c10E.map Prod.snd).toOption.getD []

/-- C10 witness: pulling the absent eid `ghost:e` from the base-schema store. -/
theorem C10_witness :
    (entityInit mkStore "ghost:e").eav = mkStore.eav ++ [("ghost:e", [])]
    ∧ (∀ (row : Row) (a : String) (pv : PatV) (rest : Pattern),
        lookupA row a = none →
        entityMatch row ((a, pv) :: rest) = (row ++ [(a, [])], false))
    ∧ "ghost:e" ∈ keysOf c10Store.eav
    ∧ "ghost:e" ∈ (matchPattern c10Store []).2 :=
  C10_reads_materialize mkStore "ghost:e" 0 [] c10Store c10Res (by decide) (by rfl)

end Tripl
